import Mathlib

/-!
Verification of the asynchronous batch-job subsystem and routing pipeline of
the GIS_TN planning service (v5.0 `app/job_store.py`, `app/preprocessing.py`,
`app/job_repository.py`, `app/routers/upload_batch.py`, and v4.0
`app/services/planning_service.py`), shallowly embedded in Lean.

Modelling conventions:
* Python dicts keyed by `job_id` are modelled as lists of records in
  insertion order; key update maps over the entries with a matching id.
* Wall-clock timestamps (`time.time()`) are natural numbers supplied by the
  caller; `uuid.uuid4()` job ids are caller-supplied strings.
* Python floats (`average_chunk_duration`, costs and distances) are modelled
  as exact rationals.
* The approximate serialized size `_approx_job_size_bytes` (a `json.dumps`
  length) is an abstract parameter `sz : JobRecord → Nat`.
-/

/-- Job lifecycle states (`status` strings in `job_store.py`). -/
inductive JStatus where
  | queued
  | processing
  | completed
  | failed
deriving Repr, DecidableEq

/-- `status in {"queued", "processing"}`. -/
def JStatus.isActive : JStatus → Bool
  | .queued => true
  | .processing => true
  | _ => false

/-- `status in {"completed", "failed"}`. -/
def JStatus.isTerminal : JStatus → Bool
  | .completed => true
  | .failed => true
  | _ => false

/-- A per-chunk result dict as appended to `job["results"]`.  The status is a
string because the success path of `_process_job_in_background` stores the
processor's own status value. -/
structure ChunkResult where
  chunk_index : Nat
  processed_points : Nat
  status : String
  error_message : Option String
  duration_ms : Option Int
deriving Repr, DecidableEq

/-- `int(x or 0)` on an optional integer field (Python `or` treats both
`None` and `0` as falsy, and both give `0` here). -/
def pyOrI : Option Int → Int
  | none => 0
  | some v => v

/-- A cache entry of `InMemoryJobStore` (`_new_job_record` fields). -/
structure JobRecord where
  job_id : String
  status : JStatus
  total_points : Nat
  total_chunks : Nat
  chunk_sizes : List Nat
  processed_chunks : Nat
  failed_chunks : Nat
  results : List ChunkResult
  error_message : Option String
  created_at : Nat
  started_at : Option Nat
  finished_at : Option Nat
  last_updated_at : Nat
  average_chunk_duration : ℚ
  max_chunk_duration : Int
  total_processing_time : Int
deriving Repr, DecidableEq

/-- The in-memory job map `InMemoryJobStore._jobs`, in insertion order. -/
abbrev Store := List JobRecord

/-- `self._jobs.get(job_id)`. -/
def findJob (s : Store) (jid : String) : Option JobRecord :=
  List.find? (fun j => j.job_id == jid) s

/-- `InMemoryJobStore._new_job_record` (the uuid and `time.time()` are
supplied by the caller). -/
def newJobRecord (jid : String) (now : Nat) (total_points : Nat)
    (chunk_sizes : List Nat) : JobRecord :=
  { job_id := jid
    status := .queued
    total_points := total_points
    total_chunks := chunk_sizes.length
    chunk_sizes := chunk_sizes
    processed_chunks := 0
    failed_chunks := 0
    results := []
    error_message := none
    created_at := now
    started_at := none
    finished_at := none
    last_updated_at := now
    average_chunk_duration := 0
    max_chunk_duration := 0
    total_processing_time := 0 }

/-- Number of entries with `status in {"queued", "processing"}` (the `active`
count of `create_job_if_capacity` / `active_job_count`). -/
def activeCount (s : Store) : Nat :=
  List.countP (fun j => j.status.isActive) s

/-- Update-in-place of the dict entry with key `jid` (`self._jobs[jid]`
mutation). -/
def updIf (jid : String) (g : JobRecord → JobRecord) (j : JobRecord) : JobRecord :=
  if j.job_id == jid then g j else j

/-- `self._jobs[record["job_id"]] = record`: replace when the key exists,
otherwise append (dicts keep insertion order). -/
def insertJob (s : Store) (r : JobRecord) : Store :=
  match findJob s r.job_id with
  | some _ => List.map (updIf r.job_id (fun _ => r)) s
  | none => s ++ [r]

/-- Eviction sort key `finished_at or last_updated_at or created_at or 0`.
Python `or` falls through on `None` and on `0`. -/
def evictKey (j : JobRecord) : Nat :=
  match j.finished_at with
  | some v => if v = 0 then (if j.last_updated_at = 0 then j.created_at else j.last_updated_at) else v
  | none => if j.last_updated_at = 0 then j.created_at else j.last_updated_at

/-- Approximate total memory `_memory_usage_bytes_locked`, for an abstract
per-entry size estimate `sz`. -/
def memUsage (sz : JobRecord → Nat) (s : Store) : Nat :=
  (List.map sz s).sum

/-- One step of `_enforce_memory_limit_locked`: select and remove the
terminal entry with the smallest `evictKey` (Python `min` keeps the first
entry on ties), returning it together with the remaining store; `none` when
no terminal candidates exist. -/
def popOldestTerminal : List JobRecord → Option (JobRecord × List JobRecord)
  | [] => none
  | j :: rest =>
    if j.status.isTerminal then
      match popOldestTerminal rest with
      | none => some (j, rest)
      | some (m, rest2) =>
        if evictKey m < evictKey j then some (m, j :: rest2) else some (j, rest)
    else
      match popOldestTerminal rest with
      | none => none
      | some (m, rest2) => some (m, j :: rest2)

/-- The `while` loop of `_enforce_memory_limit_locked`.  Each iteration
removes exactly one entry, so `fuel = s.length` iterations always suffice;
the fuel only makes the recursion structural.  Returns the surviving store
and the evicted entries in eviction order. -/
def enforceFuel (sz : JobRecord → Nat) (maxBytes : Nat) :
    Nat → Store → Store × List JobRecord
  | 0, s => (s, [])
  | fuel + 1, s =>
    if memUsage sz s ≤ maxBytes then (s, [])
    else
      match popOldestTerminal s with
      | none => (s, [])
      | some (m, s2) =>
        let r := enforceFuel sz maxBytes fuel s2
        (r.1, m :: r.2)

/-- `_enforce_memory_limit_locked` (and the public `enforce_memory_limit`):
no-op when the byte budget is `<= 0`, otherwise evict oldest terminal
entries until the store fits the budget or no terminal entries remain. -/
def enforce (sz : JobRecord → Nat) (maxBytes : Nat) (s : Store) :
    Store × List JobRecord :=
  if maxBytes = 0 then (s, []) else enforceFuel sz maxBytes s.length s

/-- `InMemoryJobStore.create_job_if_capacity`. -/
def create_job_if_capacity (sz : JobRecord → Nat) (maxBytes : Nat) (s : Store)
    (jid : String) (now : Nat) (total_points : Nat) (chunk_sizes : List Nat)
    (max_active_jobs : Nat) : Option JobRecord × Store :=
  let record := newJobRecord jid now total_points chunk_sizes
  if max_active_jobs ≤ activeCount s then (none, s)
  else (some record, (enforce sz maxBytes (insertJob s record)).1)

/-- `InMemoryJobStore.set_job`. -/
def set_job (sz : JobRecord → Nat) (maxBytes : Nat) (s : Store)
    (r : JobRecord) : Store :=
  (enforce sz maxBytes (insertJob s r)).1

/-- `InMemoryJobStore.update_job`: apply the keyword updates `g`, refresh
`last_updated_at`, then run the memory guard.  No-op when the id is
absent. -/
def update_job (sz : JobRecord → Nat) (maxBytes : Nat) (s : Store)
    (jid : String) (g : JobRecord → JobRecord) (now : Nat) : Store :=
  match findJob s jid with
  | none => s
  | some _ =>
    (enforce sz maxBytes
      (List.map (updIf jid (fun j => { g j with last_updated_at := now })) s)).1

/-- The record transformation performed by `InMemoryJobStore.append_result`
on the target entry (result append, counter increments, rolling
aggregates). -/
def appendTransform (item : ChunkResult) (failed : Bool) (j : JobRecord) : JobRecord :=
  let processed := j.processed_chunks + 1
  let duration : Int := pyOrI item.duration_ms
  { j with
    results := j.results ++ [item]
    processed_chunks := processed
    failed_chunks := j.failed_chunks + (if failed then 1 else 0)
    average_chunk_duration :=
      (j.average_chunk_duration * ((processed : ℚ) - 1) + (duration : ℚ)) /
        ((max processed 1 : Nat) : ℚ)
    max_chunk_duration := max j.max_chunk_duration duration
    total_processing_time := j.total_processing_time + duration }

/-- `InMemoryJobStore.append_result`. -/
def append_result (sz : JobRecord → Nat) (maxBytes : Nat) (s : Store)
    (jid : String) (item : ChunkResult) (failed : Bool) (now : Nat) : Store :=
  match findJob s jid with
  | none => s
  | some _ =>
    (enforce sz maxBytes
      (List.map (updIf jid (fun j => { appendTransform item failed j with last_updated_at := now })) s)).1

/-- `InMemoryJobStore.pop_job`. -/
def pop_job (s : Store) (jid : String) : Store :=
  List.eraseP (fun j => j.job_id == jid) s

/-- `InMemoryJobStore.cleanup_finished`: drop terminal entries whose
`evictKey` is more than `ttl` (`job_retention_seconds`) in the past, then
run the memory guard.  (`finished_at or last_updated_at or created_at` is
never `None` because every record carries `created_at`, so the `is None`
skip in the source is dead in this model.)  Returns the surviving store and
the number of removed entries. -/
def cleanup_finished (sz : JobRecord → Nat) (maxBytes : Nat) (ttl : Nat)
    (s : Store) (now : Nat) : Store × Nat :=
  let kept := List.filter
    (fun j => !(j.status.isTerminal && decide (ttl < now - evictKey j))) s
  let r := enforce sz maxBytes kept
  (r.1, (s.length - kept.length) + r.2.length)

/-- `CHUNK_SIZE` from `app/models.py`. -/
def CHUNK_SIZE : Nat := 1000

/-- `SECURE_MAX_POINTS` from `app/models.py`. -/
def SECURE_MAX_POINTS : Nat := 100000

/-- `preprocessing.compute_chunk_sizes` (the `total_points <= 0` guard of the
source becomes `= 0` on naturals). -/
def compute_chunk_sizes (total_points chunk_size : Nat) : List Nat :=
  if total_points = 0 then []
  else
    List.replicate (total_points / chunk_size) chunk_size ++
      (if total_points % chunk_size ≠ 0 then [total_points % chunk_size] else [])

/-- `preprocessing.chunk_generator`: the chunks `items[start : start+cs]` for
`start in range(0, len(items), cs)`.  The source raises `ValueError` for
`cs <= 0`; all call sites use `CHUNK_SIZE = 1000`. -/
def chunk_generator {α : Type} (items : List α) (cs : Nat) : List (List α) :=
  List.map (fun i => List.take cs (List.drop (i * cs) items))
    (List.range ((items.length + cs - 1) / cs))

/-- The chunk lengths `[len(chunk) for chunk in chunk_generator(items, cs)]`
as a function of `len(items)` alone. -/
def chunkLens (n cs : Nat) : List Nat :=
  List.map (fun i => min cs (n - i * cs)) (List.range ((n + cs - 1) / cs))

/-- The chunk-size reconstruction inside `_hydrate_job_record_from_db`:
`[CHUNK_SIZE]*(tc-1) + [total_points - CHUNK_SIZE*(tc-1)]` for `tc > 0`,
overridden to `[total_points]` when `tc == 1`.  Subtraction is truncated;
for `tc = ceil(total_points/CHUNK_SIZE)` it never underflows. -/
def hydrateChunkSizes (total_points total_chunks : Nat) : List Nat :=
  if total_chunks = 1 then [total_points]
  else
    List.replicate (total_chunks - 1) CHUNK_SIZE ++
      (if 0 < total_chunks then [total_points - CHUNK_SIZE * (total_chunks - 1)] else [])

/-- The admission prefix of the `upload_batch` endpoint: TTL cleanup, the
`SECURE_MAX_POINTS` check (413), chunk-size computation, and the
capacity-guarded insertion (429 on `None`).  The later durable-persistence
and executor-submission steps touch external systems and are modelled
separately by the job driver.  Returns the HTTP status, the accepted record
(if any) and the cache state. -/
def upload_batch_admission (sz : JobRecord → Nat) (maxBytes ttl : Nat)
    (s : Store) (total_points : Nat) (jid : String) (now max_active_jobs : Nat) :
    Nat × Option JobRecord × Store :=
  let s0 := (cleanup_finished sz maxBytes ttl s now).1
  if SECURE_MAX_POINTS < total_points then (413, none, s0)
  else
    match create_job_if_capacity sz maxBytes s0 jid now total_points
        (chunkLens total_points CHUNK_SIZE) max_active_jobs with
    | (none, s1) => (429, none, s1)
    | (some r, s1) => (202, some r, s1)

/-- A row of the `batch_jobs` table (`job_repository.py`). -/
structure DbJob where
  job_id : String
  total_points : Nat
  total_chunks : Nat
  processed_chunks : Nat
  failed_chunks : Nat
  status : String
  created_at : Nat
  started_at : Option Nat
  finished_at : Option Nat
  error_message : Option String
deriving Repr, DecidableEq

/-- A row of the `batch_chunk_results` table, in `id` (insertion) order. -/
structure DbChunkRow where
  job_id : String
  chunk_index : Nat
  processed_points : Nat
  status : String
  error_message : Option String
  duration_ms : Int
deriving Repr, DecidableEq

/-- The durable layer: both tables. -/
structure DbState where
  jobs : List DbJob
  chunk_results : List DbChunkRow
deriving Repr, DecidableEq

/-- `SELECT ... FROM batch_jobs WHERE job_id = %s`. -/
def dbFindJob (db : DbState) (jid : String) : Option DbJob :=
  List.find? (fun j => j.job_id == jid) db.jobs

/-- The chunk rows of one job (`get_chunk_results` selects by `job_id`). -/
def dbRowsFor (db : DbState) (jid : String) : List DbChunkRow :=
  List.filter (fun r => r.job_id == jid) db.chunk_results

/-- `JobRepository.create_job`: insert a `batch_jobs` row with zeroed
counters. -/
def db_create_job (db : DbState) (jid : String) (total_points total_chunks : Nat)
    (status : String) (now : Nat) : DbState :=
  { db with jobs := db.jobs ++
      [{ job_id := jid, total_points := total_points, total_chunks := total_chunks
         processed_chunks := 0, failed_chunks := 0, status := status
         created_at := now, started_at := none, finished_at := none
         error_message := none }] }

/-- `JobRepository.update_job_status`: always sets `status`; sets
`started_at`/`finished_at` to `NOW()` only when the corresponding flag is
passed; sets `error_message` only when it is not `None`. -/
def db_update_job_status (db : DbState) (jid : String) (status : String)
    (started_at_now finished_at_now : Bool) (error_message : Option String)
    (now : Nat) : DbState :=
  { db with jobs := List.map (fun j =>
      if j.job_id == jid then
        { j with
          status := status
          started_at := if started_at_now then some now else j.started_at
          finished_at := if finished_at_now then some now else j.finished_at
          error_message := match error_message with
            | some e => some e
            | none => j.error_message }
      else j) db.jobs }

/-- `JobRepository.persist_chunk_result`: insert one chunk row and atomically
bump `processed_chunks` (and `failed_chunks` iff the row status is
`'failed'`). -/
def db_persist_chunk_result (db : DbState) (jid : String) (chunk_index : Nat)
    (processed_points : Nat) (status : String) (error_message : Option String)
    (duration_ms : Int) : DbState :=
  { jobs := List.map (fun j =>
      if j.job_id == jid then
        { j with
          processed_chunks := j.processed_chunks + 1
          failed_chunks := j.failed_chunks + (if status == "failed" then 1 else 0) }
      else j) db.jobs
    chunk_results := db.chunk_results ++
      [{ job_id := jid, chunk_index := chunk_index
         processed_points := processed_points, status := status
         error_message := error_message, duration_ms := duration_ms }] }

/-- The dict a chunk processor returns, before the driver's `setdefault`
coercion fills missing keys. -/
structure ProcOutput where
  chunk_index : Option Nat
  processed_points : Option Nat
  status : Option String
  error_message : Option String
  duration_ms : Option Int
deriving Repr, DecidableEq

/-- The `result.setdefault(...)` coercion of the success path of
`_process_job_in_background` (`idx`, `len(chunk)`, `"ok"` and the measured
`duration_ms` as defaults). -/
def coerceResult (idx chunkLen : Nat) (durationMs : Int) (p : ProcOutput) : ChunkResult :=
  { chunk_index := p.chunk_index.getD idx
    processed_points := p.processed_points.getD chunkLen
    status := p.status.getD "ok"
    error_message := p.error_message
    duration_ms := some (p.duration_ms.getD durationMs) }

/-- What the chunk-pool future does for one chunk, as observed by the driver:
it returns a dict after a measured wall-clock duration, raises
`TimeoutError`, or raises some other exception (this also covers the
driver's own `ValueError` for a non-dict return).  Durations are the
`int((perf_counter() - chunk_started) * 1000)` values observed by the
driver. -/
inductive Outcome where
  | ok (p : ProcOutput) (durationMs : Int)
  | timeout (durationMs : Int)
  | exc (message : String) (durationMs : Int)
deriving Repr, DecidableEq

/-- The timeout error message `f"Chunk timeout after {chunk_timeout_seconds} seconds."`. -/
def timeoutMessage (chunkTimeoutSeconds : Nat) : String :=
  "Chunk timeout after " ++ toString chunkTimeoutSeconds ++ " seconds."

/-- For one chunk, the cache item appended by the driver, the `failed` flag,
and the `duration_ms` passed to `persist_chunk_result`
(`int(result.get("duration_ms") or duration_ms)` on the success path). -/
def driverChunk (chunkTimeoutSeconds : Nat) (idx chunkLen : Nat) (o : Outcome) :
    ChunkResult × Bool × Int :=
  match o with
  | .ok p d =>
    let r := coerceResult idx chunkLen d p
    (r, r.status ≠ "ok", if pyOrI r.duration_ms = 0 then d else pyOrI r.duration_ms)
  | .timeout d =>
    ({ chunk_index := idx, processed_points := chunkLen, status := "failed"
       error_message := some (timeoutMessage chunkTimeoutSeconds)
       duration_ms := some d }, true, d)
  | .exc msg d =>
    ({ chunk_index := idx, processed_points := chunkLen, status := "failed"
       error_message := some msg, duration_ms := some d }, true, d)

/-- The `for idx, chunk in enumerate(chunk_generator(...))` loop of
`_process_job_in_background`, with the per-chunk future behaviour supplied
as an `Outcome` oracle zipped against the chunks.  Threads the cache, the
durable store and the `had_failures` flag. -/
def driverLoop {α : Type} (sz : JobRecord → Nat) (maxBytes : Nat) (jid : String)
    (chunkTimeoutSeconds now : Nat) :
    Nat → List (List α × Outcome) → Store × DbState × Bool → Store × DbState × Bool
  | _, [], st => st
  | idx, (chunk, o) :: rest, (s, db, had) =>
    let r := driverChunk chunkTimeoutSeconds idx chunk.length o
    driverLoop sz maxBytes jid chunkTimeoutSeconds now (idx + 1) rest
      (append_result sz maxBytes s jid r.1 r.2.1 now,
       db_persist_chunk_result db jid r.1.chunk_index r.1.processed_points
         (if r.2.1 then "failed" else "ok") r.1.error_message r.2.2,
       had || r.2.1)

/-- The cache state of the driver just after its terminal
`job_store.update_job(...)` call (before the final explicit
`enforce_memory_limit`). -/
def processJobAfterTerminal {α : Type} (sz : JobRecord → Nat) (maxBytes : Nat)
    (jid : String) (coords : List α) (outs : List Outcome)
    (chunkTimeoutSeconds now : Nat) (s : Store) (db : DbState) :
    Store × DbState × Bool :=
  let s1 := update_job sz maxBytes s jid
    (fun j => { j with status := .processing, started_at := some now, error_message := none }) now
  let db1 := db_update_job_status db jid "processing" true false none now
  let st := driverLoop sz maxBytes jid chunkTimeoutSeconds now 0
    ((chunk_generator coords CHUNK_SIZE).zip outs) (s1, db1, false)
  let had := st.2.2
  let ferr := if had then some "One or more chunks failed." else none
  (update_job sz maxBytes st.1 jid
     (fun j => { j with status := if had then .failed else .completed
                        finished_at := some now, error_message := ferr }) now,
   db_update_job_status st.2.1 jid (if had then "failed" else "completed")
     false true ferr now,
   had)

/-- `_process_job_in_background` on its non-exceptional control path: mark
processing in both stores, run every chunk, write the terminal state to both
stores, then `enforce_memory_limit()`. -/
def processJob {α : Type} (sz : JobRecord → Nat) (maxBytes : Nat)
    (jid : String) (coords : List α) (outs : List Outcome)
    (chunkTimeoutSeconds now : Nat) (s : Store) (db : DbState) :
    Store × DbState :=
  let st := processJobAfterTerminal sz maxBytes jid coords outs chunkTimeoutSeconds now s db
  ((enforce sz maxBytes st.1).1, st.2.1)

/-- The cache operations the planning service actually performs, as a step
relation used to state "at every observation point" invariants.  The
constructors mirror the call sites: admission (`upload_batch`), the driver's
queued-to-processing transition (it targets the record it has just created,
hence the `queued` guard), result appends, terminal transitions (driver,
exception handler, executor-submission failure), TTL cleanup, the memory
guard, `pop_job` (result retrieval / persistence-failure compensation) and
`set_job` re-insertion of hydrated records (hydration only ever reloads
durably terminal jobs: active jobs live in the cache for their whole
in-process life, and after a restart `mark_incomplete_jobs_failed` has
demoted every queued/processing row). -/
inductive CacheStep (sz : JobRecord → Nat) (maxBytes ttl max_active_jobs : Nat) :
    Store → Store → Prop
  | admission (s : Store) (jid : String) (now total_points : Nat) (chunk_sizes : List Nat) :
    CacheStep sz maxBytes ttl max_active_jobs s
      (create_job_if_capacity sz maxBytes s jid now total_points chunk_sizes max_active_jobs).2
  | toProcessing (s : Store) (jid : String) (now startedAt : Nat) (j : JobRecord)
      (hfind : findJob s jid = some j) (hq : j.status = .queued) :
    CacheStep sz maxBytes ttl max_active_jobs s
      (update_job sz maxBytes s jid
        (fun r => { r with status := .processing, started_at := some startedAt, error_message := none }) now)
  | appendRes (s : Store) (jid : String) (item : ChunkResult) (failed : Bool) (now : Nat) :
    CacheStep sz maxBytes ttl max_active_jobs s
      (append_result sz maxBytes s jid item failed now)
  | finish (s : Store) (jid : String) (now finishedAt : Nat) (st : JStatus)
      (err : Option String) (ht : st.isTerminal = true) :
    CacheStep sz maxBytes ttl max_active_jobs s
      (update_job sz maxBytes s jid
        (fun r => { r with status := st, finished_at := some finishedAt, error_message := err }) now)
  | cleanup (s : Store) (now : Nat) :
    CacheStep sz maxBytes ttl max_active_jobs s (cleanup_finished sz maxBytes ttl s now).1
  | enforceOnly (s : Store) :
    CacheStep sz maxBytes ttl max_active_jobs s (enforce sz maxBytes s).1
  | popStep (s : Store) (jid : String) :
    CacheStep sz maxBytes ttl max_active_jobs s (pop_job s jid)
  | setHydrated (s : Store) (r : JobRecord) (ht : r.status.isTerminal = true) :
    CacheStep sz maxBytes ttl max_active_jobs s (set_job sz maxBytes s r)

/-- Cache states reachable from the empty store through the service's
operations. -/
inductive ReachableStore (sz : JobRecord → Nat) (maxBytes ttl max_active_jobs : Nat) :
    Store → Prop
  | init : ReachableStore sz maxBytes ttl max_active_jobs []
  | step (s s2 : Store) (h : ReachableStore sz maxBytes ttl max_active_jobs s)
      (hs : CacheStep sz maxBytes ttl max_active_jobs s s2) :
    ReachableStore sz maxBytes ttl max_active_jobs s2

/-- `settings.default_cost_per_meter` (v4.0 `app/config.py`). -/
def default_cost_per_meter : ℚ := 700

/-- Classified routing failures (`AppError(code, message, status)` in
`planning_service.py`). -/
structure AppError where
  code : String
  message : String
  http_status : Nat
deriving Repr, DecidableEq

/-- The aggregate row of the `pgr_dijkstra` route query (`COALESCE` makes
the sums `0` rather than `NULL`; `route_geojson` is `NULL` when no geometry
was collected). -/
structure RouteRow where
  distance_meters : ℚ
  deployment_cost : ℚ
  edge_count : Nat
  route_geojson : Option String
deriving Repr, DecidableEq

/-- Route geometry: either the degenerate two-vertex line built inline for
the `source = target` case, or the GeoJSON text parsed from the row. -/
inductive RouteGeometry where
  | line (coordinates : List (ℚ × ℚ))
  | parsed (geojson : String)
deriving Repr, DecidableEq

/-- The dict returned by `PlanningService.compute_route`. -/
structure RouteOut where
  franchise_id : String
  nearest_node_id : String
  source_road_node_id : Int
  target_road_node_id : Int
  distance_meters : ℚ
  estimated_cost : ℚ
  edge_count : Nat
  route_geojson : RouteGeometry
deriving Repr, DecidableEq

/-- The spatial store as seen by `PlanningService.compute_route`: each field
is one of the SQL helpers it calls (coordinates are `(longitude, latitude)`
pairs). -/
structure GeoEnv where
  resolve_franchise : ℚ → ℚ → Option String
  nearest_fiber_node : String → ℚ → ℚ → Option String
  fiber_node_coordinates : String → Option (ℚ × ℚ)
  nearest_road_node : String → ℚ → ℚ → Option Int
  road_node_coordinates : String → Int → Option (ℚ × ℚ)
  route_query : String → Int → Int → Option RouteRow

/-- `PlanningService.compute_route` (v4.0).  Numeric values are exact
rationals; `row["deployment_cost"] or (distance * cost_per_meter)` picks the
fallback exactly when the cost sum is zero, and `not route_geojson` is true
for `NULL` and for the empty string. -/
def compute_route (env : GeoEnv) (cost_per_meter : ℚ) (longitude latitude : ℚ) :
    Except AppError RouteOut :=
  match env.resolve_franchise longitude latitude with
  | none => .error ⟨"outside_franchise", "Consumer point is outside configured franchise zones.", 400⟩
  | some franchise_id =>
    match env.nearest_fiber_node franchise_id longitude latitude with
    | none => .error ⟨"no_fiber_node", "No fiber nodes available in resolved franchise.", 400⟩
    | some nearest_node_id =>
      match env.fiber_node_coordinates nearest_node_id with
      | none => .error ⟨"fiber_node_geometry_missing", "Nearest fiber node geometry could not be resolved.", 500⟩
      | some fiber_coords =>
        match env.nearest_road_node franchise_id longitude latitude,
              env.nearest_road_node franchise_id fiber_coords.1 fiber_coords.2 with
        | some source_road_node, some target_road_node =>
          if source_road_node = target_road_node then
            match env.road_node_coordinates franchise_id source_road_node with
            | none => .error ⟨"road_snap_failed", "Road-node snapping failed for franchise subgraph.", 400⟩
            | some rn =>
              .ok { franchise_id := franchise_id
                    nearest_node_id := nearest_node_id
                    source_road_node_id := source_road_node
                    target_road_node_id := target_road_node
                    distance_meters := 0
                    estimated_cost := 0
                    edge_count := 0
                    route_geojson := .line [(rn.1, rn.2), (rn.1, rn.2)] }
          else
            match env.route_query franchise_id source_road_node target_road_node with
            | none => .error ⟨"route_not_found", "No route could be computed inside the franchise road subgraph.", 400⟩
            | some row =>
              if row.edge_count = 0 ∨ row.route_geojson = none ∨ row.route_geojson = some "" then
                .error ⟨"route_not_found", "No route could be computed inside the franchise road subgraph.", 400⟩
              else
                .ok { franchise_id := franchise_id
                      nearest_node_id := nearest_node_id
                      source_road_node_id := source_road_node
                      target_road_node_id := target_road_node
                      distance_meters := row.distance_meters
                      estimated_cost :=
                        if row.deployment_cost = 0 then row.distance_meters * cost_per_meter
                        else row.deployment_cost
                      edge_count := row.edge_count
                      route_geojson := .parsed ((row.route_geojson).getD "") }
        | _, _ => .error ⟨"road_snap_failed", "Road-node snapping failed for franchise subgraph.", 400⟩


/-- The dict keys `job_id` of the cache, in insertion order. -/
def storeIds (s : Store) : List String := List.map JobRecord.job_id s

/-- The invariant carried by every reachable cache state: the admission
bound on active entries, plus well-formedness of the dict model (distinct
keys). -/
def StoreInv (max_active_jobs : Nat) (s : Store) : Prop :=
  activeCount s ≤ max_active_jobs ∧ (storeIds s).Nodup

/-- A small record builder used to instantiate theorems on concrete cache
states: a fresh record with the given status and timestamps. -/
def mkJob (jid : String) (st : JStatus) (createdAt lastUpdated : Nat)
    (finishedAt : Option Nat) : JobRecord :=
  { newJobRecord jid createdAt 1 [1] with
    status := st, finished_at := finishedAt, last_updated_at := lastUpdated }

/-- Whether one chunk outcome makes the driver record a failure
(`result.get("status") != "ok"` on the success path; timeouts and
exceptions always fail). -/
def outcomeFailed (o : Outcome) : Bool :=
  match o with
  | .ok p _ => !(p.status.getD "ok" == "ok")
  | .timeout _ => true
  | .exc _ _ => true

/-- The cache items appended by the driver loop, chunk by chunk. -/
def driverItems {α : Type} (chunkTimeoutSeconds : Nat) :
    Nat → List (List α × Outcome) → List ChunkResult
  | _, [] => []
  | idx, (chunk, o) :: rest =>
    (driverChunk chunkTimeoutSeconds idx chunk.length o).1 ::
      driverItems chunkTimeoutSeconds (idx + 1) rest

/-- The job record transformation applied by the driver loop to the target
cache entry (each chunk runs `append_result`'s transformation and refreshes
`last_updated_at`). -/
def driverFoldRec {α : Type} (chunkTimeoutSeconds now : Nat) :
    Nat → List (List α × Outcome) → JobRecord → JobRecord
  | _, [], r => r
  | idx, (chunk, o) :: rest, r =>
    driverFoldRec chunkTimeoutSeconds now (idx + 1) rest
      { appendTransform (driverChunk chunkTimeoutSeconds idx chunk.length o).1
          (driverChunk chunkTimeoutSeconds idx chunk.length o).2.1 r with
        last_updated_at := now }

/-- A concrete aggregate row used to instantiate routing theorems: a found
path whose cost sum is zero. -/
def sampleRouteRow : RouteRow :=
  { distance_meters := 10, deployment_cost := 0, edge_count := 2,
    route_geojson := some "geo" }

/-- A concrete spatial environment for instantiating routing theorems:
one franchise, one fiber node at `(2, 3)`, road snaps `4` (consumer side)
and `8` (fiber side). -/
def sampleGeoEnv : GeoEnv :=
  { resolve_franchise := fun _ _ => some "f1"
    nearest_fiber_node := fun _ _ _ => some "fn1"
    fiber_node_coordinates := fun _ => some (2, 3)
    nearest_road_node := fun _ x _ => if x = 2 then some 8 else some 4
    road_node_coordinates := fun _ _ => some (0, 0)
    route_query := fun _ _ _ => some sampleRouteRow }

/-- The route `compute_route` produces on `sampleGeoEnv` at `(0, 0)` with the
default cost per meter: zero cost sum, so `10 * 700 = 7000`. -/
def sampleRouteOut : RouteOut :=
  { franchise_id := "f1", nearest_node_id := "fn1", source_road_node_id := 4,
    target_road_node_id := 8, distance_meters := 10, estimated_cost := 7000,
    edge_count := 2, route_geojson := .parsed "geo" }

/-- A concrete successful chunk result for instantiating theorems. -/
def sampleOkItem : ChunkResult :=
  { chunk_index := 0, processed_points := 1, status := "ok",
    error_message := none, duration_ms := some 5 }

/-- A concrete failed chunk result for instantiating theorems. -/
def sampleFailedItem : ChunkResult :=
  { chunk_index := 1, processed_points := 1, status := "failed",
    error_message := some "boom", duration_ms := some 7 }

theorem isActive_eq_false_of_isTerminal (st : JStatus) (h : st.isTerminal = true) :
    st.isActive = false := by
  cases st <;> simp_all [JStatus.isTerminal, JStatus.isActive]

theorem isTerminal_eq_false_of_isActive (st : JStatus) (h : st.isActive = true) :
    st.isTerminal = false := by
  cases st <;> simp_all [JStatus.isTerminal, JStatus.isActive]

theorem popOldestTerminal_perm (s : List JobRecord) (m : JobRecord)
    (s2 : List JobRecord) (h : popOldestTerminal s = some (m, s2)) :
    s.Perm (m :: s2) := by
  induction s generalizing m s2 with
  | nil => simp [popOldestTerminal] at h
  | cons j rest ih =>
    simp only [popOldestTerminal] at h
    split at h
    · split at h
      · simp only [Option.some.injEq, Prod.mk.injEq] at h
        rw [← h.1, ← h.2]
      · rename_i m1 r2 heq
        split at h
        · simp only [Option.some.injEq, Prod.mk.injEq] at h
          rw [← h.1, ← h.2]
          exact ((ih m1 r2 heq).cons j).trans (List.Perm.swap m1 j r2)
        · simp only [Option.some.injEq, Prod.mk.injEq] at h
          rw [← h.1, ← h.2]
    · split at h
      · simp at h
      · rename_i m1 r2 heq
        simp only [Option.some.injEq, Prod.mk.injEq] at h
        rw [← h.1, ← h.2]
        exact ((ih m1 r2 heq).cons j).trans (List.Perm.swap m1 j r2)

theorem popOldestTerminal_terminal (s : List JobRecord) (m : JobRecord)
    (s2 : List JobRecord) (h : popOldestTerminal s = some (m, s2)) :
    m.status.isTerminal = true := by
  induction s generalizing m s2 with
  | nil => simp [popOldestTerminal] at h
  | cons j rest ih =>
    simp only [popOldestTerminal] at h
    split at h
    · split at h
      · simp only [Option.some.injEq, Prod.mk.injEq] at h
        rw [← h.1]; assumption
      · rename_i m1 r2 heq
        split at h
        · simp only [Option.some.injEq, Prod.mk.injEq] at h
          rw [← h.1]; exact ih m1 r2 heq
        · simp only [Option.some.injEq, Prod.mk.injEq] at h
          rw [← h.1]; assumption
    · split at h
      · simp at h
      · rename_i m1 r2 heq
        simp only [Option.some.injEq, Prod.mk.injEq] at h
        rw [← h.1]; exact ih m1 r2 heq

theorem popOldestTerminal_none (s : List JobRecord)
    (h : popOldestTerminal s = none) :
    ∀ x ∈ s, x.status.isTerminal = false := by
  induction s with
  | nil => intro x hx; simp at hx
  | cons j rest ih =>
    intro x hx
    simp only [popOldestTerminal] at h
    split at h
    · split at h
      · simp at h
      · split at h <;> simp at h
    · rename_i hnt
      cases hx with
      | head => simpa using hnt
      | tail _ hx2 =>
        split at h
        · rename_i heq; exact ih heq x hx2
        · simp at h

theorem popOldestTerminal_sublist (s : List JobRecord) (m : JobRecord)
    (s2 : List JobRecord) (h : popOldestTerminal s = some (m, s2)) :
    s2.Sublist s := by
  induction s generalizing m s2 with
  | nil => simp [popOldestTerminal] at h
  | cons j rest ih =>
    simp only [popOldestTerminal] at h
    split at h
    · split at h
      · simp only [Option.some.injEq, Prod.mk.injEq] at h
        rw [← h.2]; exact List.sublist_cons_self j rest
      · rename_i m1 r2 heq
        split at h
        · simp only [Option.some.injEq, Prod.mk.injEq] at h
          rw [← h.2]; exact (ih m1 r2 heq).cons₂ j
        · simp only [Option.some.injEq, Prod.mk.injEq] at h
          rw [← h.2]; exact List.sublist_cons_self j rest
    · split at h
      · simp at h
      · rename_i m1 r2 heq
        simp only [Option.some.injEq, Prod.mk.injEq] at h
        rw [← h.2]; exact (ih m1 r2 heq).cons₂ j

theorem popOldestTerminal_min (s : List JobRecord) (m : JobRecord)
    (s2 : List JobRecord) (h : popOldestTerminal s = some (m, s2)) :
    ∀ x ∈ s2, x.status.isTerminal = true → evictKey m ≤ evictKey x := by
  induction s generalizing m s2 with
  | nil => simp [popOldestTerminal] at h
  | cons j rest ih =>
    simp only [popOldestTerminal] at h
    split at h
    · rename_i hterm
      split at h
      · rename_i heq
        simp only [Option.some.injEq, Prod.mk.injEq] at h
        rw [← h.1, ← h.2]
        intro x hx hxt
        exact absurd (popOldestTerminal_none rest heq x hx) (by simp [hxt])
      · rename_i m1 r2 heq
        split at h
        · rename_i hlt
          simp only [Option.some.injEq, Prod.mk.injEq] at h
          rw [← h.1, ← h.2]
          intro x hx hxt
          cases hx with
          | head => exact Nat.le_of_lt hlt
          | tail _ hx2 => exact ih m1 r2 heq x hx2 hxt
        · rename_i hnlt
          simp only [Option.some.injEq, Prod.mk.injEq] at h
          rw [← h.1, ← h.2]
          intro x hx hxt
          have hjm1 : evictKey j ≤ evictKey m1 := Nat.le_of_not_lt hnlt
          have hmem : x ∈ m1 :: r2 :=
            (popOldestTerminal_perm rest m1 r2 heq).mem_iff.mp hx
          cases hmem with
          | head => exact hjm1
          | tail _ hx2 => exact hjm1.trans (ih m1 r2 heq x hx2 hxt)
    · rename_i hnt
      split at h
      · simp at h
      · rename_i m1 r2 heq
        simp only [Option.some.injEq, Prod.mk.injEq] at h
        rw [← h.1, ← h.2]
        intro x hx hxt
        cases hx with
        | head => exact absurd hxt hnt
        | tail _ hx2 => exact ih m1 r2 heq x hx2 hxt

theorem enforceFuel_sublist (sz : JobRecord → Nat) (maxBytes fuel : Nat)
    (s : Store) : (enforceFuel sz maxBytes fuel s).1.Sublist s := by
  induction fuel generalizing s with
  | zero => simp [enforceFuel]
  | succ n ih =>
    simp only [enforceFuel]
    split
    · exact List.Sublist.refl s
    · split
      · exact List.Sublist.refl s
      · rename_i m s2 heq
        exact (ih s2).trans (popOldestTerminal_sublist s m s2 heq)

theorem enforceFuel_perm (sz : JobRecord → Nat) (maxBytes fuel : Nat)
    (s : Store) :
    ((enforceFuel sz maxBytes fuel s).1 ++ (enforceFuel sz maxBytes fuel s).2).Perm s := by
  induction fuel generalizing s with
  | zero => simp [enforceFuel]
  | succ n ih =>
    simp only [enforceFuel]
    split
    · simp
    · split
      · simp
      · rename_i m s2 heq
        have h1 := ih s2
        have h2 := popOldestTerminal_perm s m s2 heq
        exact List.perm_middle.trans ((h1.cons m).trans h2.symm)

theorem enforceFuel_removed_terminal (sz : JobRecord → Nat) (maxBytes fuel : Nat)
    (s : Store) : ∀ x ∈ (enforceFuel sz maxBytes fuel s).2, x.status.isTerminal = true := by
  induction fuel generalizing s with
  | zero => simp [enforceFuel]
  | succ n ih =>
    simp only [enforceFuel]
    split
    · simp
    · split
      · simp
      · rename_i m s2 heq
        intro x hx
        simp only [List.mem_cons] at hx
        cases hx with
        | inl hxm => rw [hxm]; exact popOldestTerminal_terminal s m s2 heq
        | inr hx2 => exact ih s2 x hx2

theorem enforceFuel_removed_sorted (sz : JobRecord → Nat) (maxBytes fuel : Nat)
    (s : Store) :
    List.Sorted (fun a b => evictKey a ≤ evictKey b) (enforceFuel sz maxBytes fuel s).2 := by
  induction fuel generalizing s with
  | zero => simp [enforceFuel]
  | succ n ih =>
    simp only [enforceFuel]
    split
    · simp
    · split
      · simp
      · rename_i m s2 heq
        refine List.sorted_cons.mpr ⟨?_, ih s2⟩
        intro b hb
        have hbs2 : b ∈ s2 :=
          ((enforceFuel_perm sz maxBytes n s2).mem_iff.mp
            (List.mem_append.mpr (Or.inr hb)))
        exact popOldestTerminal_min s m s2 heq b hbs2
          (enforceFuel_removed_terminal sz maxBytes n s2 b hb)

theorem enforceFuel_stop (sz : JobRecord → Nat) (maxBytes fuel : Nat)
    (s : Store) (hfuel : s.length ≤ fuel) :
    memUsage sz (enforceFuel sz maxBytes fuel s).1 ≤ maxBytes ∨
      ∀ x ∈ (enforceFuel sz maxBytes fuel s).1, x.status.isTerminal = false := by
  induction fuel generalizing s with
  | zero =>
    have : s = [] := List.eq_nil_of_length_eq_zero (Nat.le_zero.mp hfuel)
    subst this
    left
    simp [enforceFuel, memUsage]
  | succ n ih =>
    simp only [enforceFuel]
    split
    · left; assumption
    · split
      · rename_i heq
        right
        exact popOldestTerminal_none s heq
      · rename_i m s2 heq
        have hlen : s2.length + 1 = s.length :=
          by simpa using (popOldestTerminal_perm s m s2 heq).length_eq.symm
        exact ih s2 (by omega)

theorem enforceFuel_id_of_budget (sz : JobRecord → Nat) (maxBytes fuel : Nat)
    (s : Store) (h : memUsage sz s ≤ maxBytes) :
    enforceFuel sz maxBytes fuel s = (s, []) := by
  cases fuel with
  | zero => rfl
  | succ n => simp [enforceFuel, h]

theorem enforce_sublist (sz : JobRecord → Nat) (maxBytes : Nat) (s : Store) :
    (enforce sz maxBytes s).1.Sublist s := by
  unfold enforce
  split
  · exact List.Sublist.refl s
  · exact enforceFuel_sublist sz maxBytes s.length s

theorem enforce_perm (sz : JobRecord → Nat) (maxBytes : Nat) (s : Store) :
    ((enforce sz maxBytes s).1 ++ (enforce sz maxBytes s).2).Perm s := by
  unfold enforce
  split
  · simp
  · exact enforceFuel_perm sz maxBytes s.length s

theorem enforce_removed_terminal (sz : JobRecord → Nat) (maxBytes : Nat)
    (s : Store) : ∀ x ∈ (enforce sz maxBytes s).2, x.status.isTerminal = true := by
  unfold enforce
  split
  · simp
  · exact enforceFuel_removed_terminal sz maxBytes s.length s

theorem enforce_id_of_budget (sz : JobRecord → Nat) (maxBytes : Nat) (s : Store)
    (h : memUsage sz s ≤ maxBytes) : enforce sz maxBytes s = (s, []) := by
  unfold enforce
  split
  · rfl
  · exact enforceFuel_id_of_budget sz maxBytes s.length s h

theorem mem_enforce_of_not_terminal (sz : JobRecord → Nat) (maxBytes : Nat)
    (s : Store) (j : JobRecord) (hj : j ∈ s) (ht : j.status.isTerminal = false) :
    j ∈ (enforce sz maxBytes s).1 := by
  have hmem : j ∈ (enforce sz maxBytes s).1 ++ (enforce sz maxBytes s).2 :=
    (enforce_perm sz maxBytes s).mem_iff.mpr hj
  rcases List.mem_append.mp hmem with h1 | h2
  · exact h1
  · exact absurd (enforce_removed_terminal sz maxBytes s j h2) (by simp [ht])

theorem activeCount_enforce (sz : JobRecord → Nat) (maxBytes : Nat) (s : Store) :
    activeCount (enforce sz maxBytes s).1 = activeCount s := by
  have hperm := (enforce_perm sz maxBytes s).countP_eq (fun j => j.status.isActive)
  rw [List.countP_append] at hperm
  have hzero : List.countP (fun j => j.status.isActive) (enforce sz maxBytes s).2 = 0 := by
    rw [List.countP_eq_zero]
    intro x hx
    simp [isActive_eq_false_of_isTerminal x.status (enforce_removed_terminal sz maxBytes s x hx)]
  unfold activeCount
  omega

theorem findJob_map_updIf (s : Store) (jid : String) (g : JobRecord → JobRecord)
    (hg : ∀ j, (g j).job_id = j.job_id) :
    findJob (List.map (updIf jid g) s) jid = (findJob s jid).map g := by
  induction s with
  | nil => rfl
  | cons j rest ih =>
    by_cases hj : (j.job_id == jid) = true
    · have h2 : ((updIf jid g j).job_id == jid) = true := by
        simp only [updIf, hj, if_true]
        rw [hg j]
        exact hj
      simp only [findJob, List.map_cons, List.find?] at ih ⊢
      rw [hj, h2]
      simp [updIf, hj]
    · have h2 : ((updIf jid g j).job_id == jid) = false := by
        simp only [updIf, hj, if_false]
        simpa using hj
      simp only [findJob, List.map_cons, List.find?] at ih ⊢
      rw [h2]
      have hj2 : (j.job_id == jid) = false := by simpa using hj
      rw [hj2]
      exact ih

theorem findJob_update_job (sz : JobRecord → Nat) (maxBytes : Nat) (s : Store)
    (jid : String) (g : JobRecord → JobRecord) (now : Nat)
    (HB : ∀ t, memUsage sz t ≤ maxBytes)
    (hg : ∀ j, (g j).job_id = j.job_id) :
    findJob (update_job sz maxBytes s jid g now) jid =
      (findJob s jid).map (fun j => { g j with last_updated_at := now }) := by
  unfold update_job
  cases hf : findJob s jid with
  | none => simp [hf]
  | some r =>
    rw [enforce_id_of_budget sz maxBytes _ (HB _)]
    have := findJob_map_updIf s jid (fun j => { g j with last_updated_at := now })
      (fun j => hg j)
    rw [this, hf]

theorem findJob_append_result (sz : JobRecord → Nat) (maxBytes : Nat) (s : Store)
    (jid : String) (item : ChunkResult) (failed : Bool) (now : Nat)
    (HB : ∀ t, memUsage sz t ≤ maxBytes) :
    findJob (append_result sz maxBytes s jid item failed now) jid =
      (findJob s jid).map
        (fun j => { appendTransform item failed j with last_updated_at := now }) := by
  unfold append_result
  cases hf : findJob s jid with
  | none => simp [hf]
  | some r =>
    rw [enforce_id_of_budget sz maxBytes _ (HB _)]
    have := findJob_map_updIf s jid
      (fun j => { appendTransform item failed j with last_updated_at := now })
      (fun j => rfl)
    rw [this, hf]

theorem countP_map_le (p : JobRecord → Bool) (f : JobRecord → JobRecord)
    (s : List JobRecord) (h : ∀ x, p (f x) = true → p x = true) :
    List.countP p (List.map f s) ≤ List.countP p s := by
  rw [List.countP_map]
  exact List.countP_mono_left (fun x _ hx => h x hx)

theorem countP_map_eq (p : JobRecord → Bool) (f : JobRecord → JobRecord)
    (s : List JobRecord) (h : ∀ x, p (f x) = p x) :
    List.countP p (List.map f s) = List.countP p s := by
  rw [List.countP_map]
  exact List.countP_congr (fun x _ => by rw [Function.comp_apply, h x])

theorem countP_filter_of_imp (p q : JobRecord → Bool) (s : List JobRecord)
    (h : ∀ x, p x = true → q x = true) :
    List.countP p (List.filter q s) = List.countP p s := by
  induction s with
  | nil => simp
  | cons j rest ih =>
    by_cases hq : q j = true
    · simp only [List.filter_cons_of_pos hq, List.countP_cons, ih]
    · have hp : p j = false := by
        by_contra hc
        simp only [Bool.not_eq_false] at hc
        exact absurd (h j hc) hq
      rw [List.filter_cons_of_neg hq, ih, List.countP_cons, hp]
      simp

theorem findJob_decomp (s : Store) (jid : String) (j : JobRecord)
    (h : findJob s jid = some j)
    (hnd : (List.map JobRecord.job_id s).Nodup) :
    ∃ a b, s = a ++ j :: b ∧ (∀ y ∈ a, (y.job_id == jid) = false) ∧
      (∀ y ∈ b, (y.job_id == jid) = false) ∧ (j.job_id == jid) = true := by
  induction s with
  | nil => simp [findJob] at h
  | cons x rest ih =>
    by_cases hx : (x.job_id == jid) = true
    · have hxj : x = j := by
        unfold findJob at h
        simp only [List.find?, hx] at h
        exact Option.some.inj h
      subst hxj
      refine ⟨[], rest, rfl, by simp, ?_, hx⟩
      intro y hy
      simp only [List.map_cons, List.nodup_cons] at hnd
      have : y.job_id ≠ x.job_id := by
        intro hc
        exact hnd.1 (hc ▸ List.mem_map_of_mem JobRecord.job_id hy)
      have hxid : x.job_id = jid := by simpa using hx
      simp [hxid ▸ this]
    · have hx2 : (x.job_id == jid) = false := by simpa using hx
      unfold findJob at h
      simp only [List.find?, hx2] at h
      simp only [List.map_cons, List.nodup_cons] at hnd
      obtain ⟨a, b, hs, ha, hb, hj⟩ := ih h hnd.2
      refine ⟨x :: a, b, by rw [hs]; rfl, ?_, hb, hj⟩
      intro y hy
      cases hy with
      | head => simpa using hx
      | tail _ hy2 => exact ha y hy2

theorem map_updIf_of_decomp (jid : String) (g : JobRecord → JobRecord)
    (a b : List JobRecord) (j : JobRecord)
    (ha : ∀ y ∈ a, (y.job_id == jid) = false)
    (hb : ∀ y ∈ b, (y.job_id == jid) = false)
    (hj : (j.job_id == jid) = true) :
    List.map (updIf jid g) (a ++ j :: b) = a ++ g j :: b := by
  rw [List.map_append, List.map_cons]
  have hma : List.map (updIf jid g) a = a := by
    have h0 : ∀ y ∈ a, updIf jid g y = id y := by
      intro y hy
      simp [updIf, ha y hy]
    rw [List.map_congr_left h0, List.map_id]
  have hmb : List.map (updIf jid g) b = b := by
    have h0 : ∀ y ∈ b, updIf jid g y = id y := by
      intro y hy
      simp [updIf, hb y hy]
    rw [List.map_congr_left h0, List.map_id]
  rw [hma, hmb]
  simp [updIf, hj]

theorem storeIds_map_updIf (s : Store) (jid : String) (g : JobRecord → JobRecord)
    (hg : ∀ y, (y.job_id == jid) = true → (g y).job_id = y.job_id) :
    storeIds (List.map (updIf jid g) s) = storeIds s := by
  unfold storeIds
  rw [List.map_map]
  apply List.map_congr_left
  intro y _
  simp only [Function.comp_apply, updIf]
  by_cases hy : (y.job_id == jid) = true
  · simp only [hy, if_true]
    exact hg y hy
  · simp only [Bool.not_eq_true] at hy
    simp only [hy]
    simp

theorem storeIds_sublist (s2 s : Store) (h : s2.Sublist s) :
    (storeIds s2).Sublist (storeIds s) :=
  h.map JobRecord.job_id

theorem nodup_ids_map_updIf (s : Store) (jid : String) (g : JobRecord → JobRecord)
    (hg : ∀ y, (y.job_id == jid) = true → (g y).job_id = y.job_id)
    (hnd : (storeIds s).Nodup) :
    (storeIds (List.map (updIf jid g) s)).Nodup := by
  rw [storeIds_map_updIf s jid g hg]
  exact hnd

theorem insertJob_activeCount (s : Store) (r : JobRecord)
    (hnd : (storeIds s).Nodup) :
    activeCount (insertJob s r) ≤
      activeCount s + (if r.status.isActive then 1 else 0) := by
  unfold insertJob
  cases hf : findJob s r.job_id with
  | none =>
    unfold activeCount
    rw [List.countP_append, List.countP_cons]
    simp
  | some x =>
    obtain ⟨a, b, hs, ha, hb, hj⟩ := findJob_decomp s r.job_id x hf hnd
    rw [hs, map_updIf_of_decomp r.job_id (fun _ => r) a b x ha hb hj]
    unfold activeCount
    rw [List.countP_append, List.countP_cons, List.countP_append, List.countP_cons]
    by_cases hr : r.status.isActive = true
    · by_cases hx : x.status.isActive = true
      · simp [hr, hx]
      · simp only [Bool.not_eq_true] at hx
        simp [hr, hx]
        omega
    · simp only [Bool.not_eq_true] at hr
      by_cases hx : x.status.isActive = true
      · simp [hr, hx]
      · simp only [Bool.not_eq_true] at hx
        simp [hr, hx]

theorem insertJob_nodupIds (s : Store) (r : JobRecord)
    (hnd : (storeIds s).Nodup) : (storeIds (insertJob s r)).Nodup := by
  unfold insertJob
  cases hf : findJob s r.job_id with
  | none =>
    unfold storeIds
    rw [List.map_append]
    rw [List.nodup_append]
    refine ⟨hnd, List.nodup_singleton _, ?_⟩
    intro y hy hy2
    simp only [List.map_cons, List.map_nil, List.mem_singleton] at hy2
    subst hy2
    unfold findJob at hf
    rw [List.find?_eq_none] at hf
    simp only [List.mem_map] at hy
    obtain ⟨z, hz, hzid⟩ := hy
    exact absurd (by simp [hzid]) (hf z hz)
  | some x =>
    rw [storeIds_map_updIf s r.job_id (fun _ => r) ?_]
    · exact hnd
    · intro y hy
      simp only
      have : y.job_id = r.job_id := by simpa using hy
      rw [this]

theorem nodup_storeIds_of_sublist (s2 s : Store) (h : s2.Sublist s)
    (hnd : (storeIds s).Nodup) : (storeIds s2).Nodup :=
  hnd.sublist (storeIds_sublist s2 s h)

theorem cacheStep_inv (sz : JobRecord → Nat) (maxBytes ttl maxA : Nat)
    (s s2 : Store) (hstep : CacheStep sz maxBytes ttl maxA s s2)
    (hinv : StoreInv maxA s) : StoreInv maxA s2 := by
  obtain ⟨hcount, hnd⟩ := hinv
  cases hstep with
  | admission jid now tp cs =>
    unfold create_job_if_capacity
    split
    · exact ⟨hcount, hnd⟩
    · rename_i hge
      constructor
      · rw [activeCount_enforce]
        have hb := insertJob_activeCount s (newJobRecord jid now tp cs) hnd
        have hact : (newJobRecord jid now tp cs).status.isActive = true := rfl
        rw [hact] at hb
        simp only [if_true] at hb
        omega
      · exact nodup_storeIds_of_sublist _ _ (enforce_sublist sz maxBytes _)
          (insertJob_nodupIds s _ hnd)
  | toProcessing jid now startedAt j hfind hq =>
    unfold update_job
    simp only [hfind]
    obtain ⟨a, b, hs, ha, hb, hj⟩ := findJob_decomp s jid j hfind hnd
    constructor
    · rw [activeCount_enforce]
      rw [hs, map_updIf_of_decomp jid _ a b j ha hb hj]
      rw [hs] at hcount
      unfold activeCount at hcount ⊢
      rw [List.countP_append, List.countP_cons] at hcount ⊢
      simp only [hq] at hcount
      simp [JStatus.isActive] at hcount ⊢
      omega
    · exact nodup_storeIds_of_sublist _ _ (enforce_sublist sz maxBytes _)
        (nodup_ids_map_updIf s jid _ (fun y _ => rfl) hnd)
  | appendRes jid item failed now =>
    unfold append_result
    cases hf : findJob s jid with
    | none => exact ⟨hcount, hnd⟩
    | some r =>
      constructor
      · rw [activeCount_enforce]
        unfold activeCount
        rw [countP_map_eq _ _ _ ?_]
        · exact hcount
        · intro x
          unfold updIf
          by_cases hx : (x.job_id == jid) = true
          · simp only [hx, if_true]
            rfl
          · simp only [Bool.not_eq_true] at hx
            simp only [hx]
            simp
      · exact nodup_storeIds_of_sublist _ _ (enforce_sublist sz maxBytes _)
          (nodup_ids_map_updIf s jid _ (fun y _ => rfl) hnd)
  | finish jid now finishedAt st err ht =>
    unfold update_job
    cases hf : findJob s jid with
    | none => exact ⟨hcount, hnd⟩
    | some r =>
      constructor
      · rw [activeCount_enforce]
        unfold activeCount
        refine le_trans (countP_map_le _ _ _ ?_) hcount
        intro x hx
        unfold updIf at hx
        by_cases hxx : (x.job_id == jid) = true
        · simp only [hxx, if_true] at hx
          have : st.isActive = true := hx
          rw [isActive_eq_false_of_isTerminal st ht] at this
          simp at this
        · simp only [Bool.not_eq_true] at hxx
          simp only [hxx] at hx
          simpa using hx
      · exact nodup_storeIds_of_sublist _ _ (enforce_sublist sz maxBytes _)
          (nodup_ids_map_updIf s jid _ (fun y _ => rfl) hnd)
  | cleanup now =>
    unfold cleanup_finished
    constructor
    · rw [activeCount_enforce]
      unfold activeCount
      rw [countP_filter_of_imp _ _ _ ?_]
      · exact hcount
      · intro x hx
        rw [isTerminal_eq_false_of_isActive x.status hx]
        simp
    · exact nodup_storeIds_of_sublist _ _
        ((enforce_sublist sz maxBytes _).trans (List.filter_sublist s)) hnd
  | enforceOnly =>
    exact ⟨by rw [activeCount_enforce]; exact hcount,
      nodup_storeIds_of_sublist _ _ (enforce_sublist sz maxBytes s) hnd⟩
  | popStep jid =>
    exact ⟨le_trans ((List.eraseP_sublist s).countP_le _) hcount,
      nodup_storeIds_of_sublist _ _ (List.eraseP_sublist s) hnd⟩
  | setHydrated r ht =>
    unfold set_job
    constructor
    · rw [activeCount_enforce]
      have hb := insertJob_activeCount s r hnd
      rw [isActive_eq_false_of_isTerminal r.status ht] at hb
      simp at hb
      omega
    · exact nodup_storeIds_of_sublist _ _ (enforce_sublist sz maxBytes _)
        (insertJob_nodupIds s r hnd)

theorem reachable_inv (sz : JobRecord → Nat) (maxBytes ttl maxA : Nat)
    (s : Store) (h : ReachableStore sz maxBytes ttl maxA s) : StoreInv maxA s := by
  induction h with
  | init => exact ⟨by simp [activeCount], by simp [storeIds]⟩
  | step s1 s2 hr hs ih => exact cacheStep_inv sz maxBytes ttl maxA s1 s2 hs ih

theorem activeCount_cleanup (sz : JobRecord → Nat) (maxBytes ttl : Nat)
    (s : Store) (now : Nat) :
    activeCount (cleanup_finished sz maxBytes ttl s now).1 = activeCount s := by
  unfold cleanup_finished
  rw [activeCount_enforce]
  unfold activeCount
  apply countP_filter_of_imp
  intro x hx
  rw [isTerminal_eq_false_of_isActive x.status hx]
  simp

/-- C1: Admission is capacity-bounded.  `create_job_if_capacity` returns
`None` and leaves the cache unchanged when the active count has reached
`max_active_jobs` (and `upload_batch` then answers 429); otherwise it
returns a fresh `queued` record with zeroed counters and inserts exactly
that one new entry (memory eviction may additionally drop terminal
entries); and every cache state reachable through the service's operations
has at most `max_active_jobs` entries in `{queued, processing}`. -/
theorem create_job_capacity_bounded
    (sz : JobRecord → Nat) (maxBytes ttl : Nat) (s : Store) (jid : String)
    (now total_points : Nat) (chunk_sizes : List Nat) (max_active_jobs : Nat) :
    (max_active_jobs ≤ activeCount s →
      create_job_if_capacity sz maxBytes s jid now total_points chunk_sizes
        max_active_jobs = (none, s)) ∧
    (activeCount s < max_active_jobs → findJob s jid = none →
      ∃ r, (create_job_if_capacity sz maxBytes s jid now total_points chunk_sizes
          max_active_jobs).1 = some r ∧
        r = newJobRecord jid now total_points chunk_sizes ∧
        r.status = JStatus.queued ∧ r.processed_chunks = 0 ∧ r.failed_chunks = 0 ∧
        r ∈ (create_job_if_capacity sz maxBytes s jid now total_points chunk_sizes
          max_active_jobs).2 ∧
        (create_job_if_capacity sz maxBytes s jid now total_points chunk_sizes
          max_active_jobs).2.Sublist (s ++ [r]) ∧
        activeCount (create_job_if_capacity sz maxBytes s jid now total_points
          chunk_sizes max_active_jobs).2 = activeCount s + 1) ∧
    (total_points ≤ SECURE_MAX_POINTS → max_active_jobs ≤ activeCount s →
      (upload_batch_admission sz maxBytes ttl s total_points jid now
        max_active_jobs).1 = 429) ∧
    (∀ s2, ReachableStore sz maxBytes ttl max_active_jobs s2 →
      activeCount s2 ≤ max_active_jobs) := by
  refine ⟨?_, ?_, ?_, ?_⟩
  · intro h
    unfold create_job_if_capacity
    rw [if_pos h]
  · intro hlt hfresh
    have hcond : ¬(max_active_jobs ≤ activeCount s) := by omega
    refine ⟨newJobRecord jid now total_points chunk_sizes, ?_, rfl, rfl, rfl, rfl, ?_, ?_, ?_⟩
    · unfold create_job_if_capacity
      rw [if_neg hcond]
    · unfold create_job_if_capacity
      rw [if_neg hcond]
      apply mem_enforce_of_not_terminal
      · unfold insertJob
        have hfresh2 : findJob s (newJobRecord jid now total_points chunk_sizes).job_id = none := hfresh
        simp only [hfresh2]
        simp
      · rfl
    · unfold create_job_if_capacity
      rw [if_neg hcond]
      unfold insertJob
      have hfresh2 : findJob s (newJobRecord jid now total_points chunk_sizes).job_id = none := hfresh
      simp only [hfresh2]
      exact enforce_sublist sz maxBytes _
    · unfold create_job_if_capacity
      rw [if_neg hcond]
      rw [activeCount_enforce]
      unfold insertJob
      have hfresh2 : findJob s (newJobRecord jid now total_points chunk_sizes).job_id = none := hfresh
      simp only [hfresh2]
      unfold activeCount
      rw [List.countP_append]
      simp [JStatus.isActive, newJobRecord]
  · intro hsize hfull
    unfold upload_batch_admission
    rw [if_neg (by omega)]
    have hcl : max_active_jobs ≤
        activeCount (cleanup_finished sz maxBytes ttl s now).1 := by
      rw [activeCount_cleanup]
      exact hfull
    unfold create_job_if_capacity
    rw [if_pos hcl]
  · intro s2 h2
    exact (reachable_inv sz maxBytes ttl max_active_jobs s2 h2).1

theorem create_job_capacity_bounded_witness :
    (create_job_if_capacity (fun _ => 0) 0 ([] : Store) "j1" 5 3 [3] 1).1.isSome = true ∧
    activeCount ([] : Store) ≤ 1 := by
  have h := create_job_capacity_bounded (fun _ => 0) 0 300 [] "j1" 5 3 [3] 1
  constructor
  · obtain ⟨r, h1, _⟩ := h.2.1 (by decide) (by rfl)
    rw [h1]
    rfl
  · exact h.2.2.2 [] (ReachableStore.init)

theorem chunkLens_eq_compute (n : Nat) :
    chunkLens n 1000 = compute_chunk_sizes n 1000 := by
  by_cases h0 : n = 0
  · subst h0; rfl
  · unfold chunkLens compute_chunk_sizes
    rw [if_neg h0]
    apply List.ext_getElem
    · simp only [List.length_map, List.length_range, List.length_append,
        List.length_replicate]
    
      by_cases hr : n % 1000 = 0
      · simp [hr]
        omega
      · simp [hr]
        omega
    · intro i h1 h2
      simp only [List.getElem_map, List.getElem_range]
      simp only [List.length_map, List.length_range] at h1
      by_cases hi : i < n / 1000
      · rw [List.getElem_append_left (by simpa using hi)]
        rw [List.getElem_replicate]
        omega
      · have hlen := h2
        simp only [List.length_append, List.length_replicate] at hlen
        have hr : n % 1000 ≠ 0 := by
          intro hc
          simp [hc] at hlen
          omega
        have hieq : i = n / 1000 := by
          simp [hr] at hlen
          omega
        rw [List.getElem_append_right (by simpa using hi)]
        simp [hr, hieq]
        omega

theorem chunk_generator_lengths {α : Type} (items : List α) (cs : Nat) :
    (chunk_generator items cs).map List.length = chunkLens items.length cs := by
  unfold chunk_generator chunkLens
  rw [List.map_map]
  apply List.map_congr_left
  intro i _
  simp [List.length_take, List.length_drop]


/-- C2: Chunking is correct.  For every batch length `n >= 1` with
`CHUNK_SIZE = 1000`, the chunk lengths produced by `chunk_generator` equal
`compute_chunk_sizes n CHUNK_SIZE`, whose list has exactly
`ceil(n / CHUNK_SIZE)` elements summing to `n`, every element except
possibly the last equals `CHUNK_SIZE`, and the last lies in
`[1, CHUNK_SIZE]`. -/
theorem chunking_correct (n : Nat) (h : 1 ≤ n) :
    (∀ {α : Type} (items : List α), items.length = n →
      (chunk_generator items CHUNK_SIZE).map List.length =
        compute_chunk_sizes n CHUNK_SIZE) ∧
    (compute_chunk_sizes n CHUNK_SIZE).length = (n + CHUNK_SIZE - 1) / CHUNK_SIZE ∧
    (compute_chunk_sizes n CHUNK_SIZE).sum = n ∧
    (∀ i (hi : i + 1 < (compute_chunk_sizes n CHUNK_SIZE).length),
      (compute_chunk_sizes n CHUNK_SIZE)[i] = CHUNK_SIZE) ∧
    (∃ hl : 0 < (compute_chunk_sizes n CHUNK_SIZE).length,
      1 ≤ (compute_chunk_sizes n CHUNK_SIZE)[(compute_chunk_sizes n CHUNK_SIZE).length - 1] ∧
      (compute_chunk_sizes n CHUNK_SIZE)[(compute_chunk_sizes n CHUNK_SIZE).length - 1] ≤ CHUNK_SIZE) := by
  unfold CHUNK_SIZE
  have hcs : compute_chunk_sizes n 1000 =
      List.replicate (n / 1000) 1000 ++ (if n % 1000 ≠ 0 then [n % 1000] else []) := by
    unfold compute_chunk_sizes
    rw [if_neg (by omega)]
  refine ⟨?_, ?_, ?_, ?_, ?_⟩
  · intro α items hlen
    rw [chunk_generator_lengths, hlen, chunkLens_eq_compute]
  · rw [hcs]
    by_cases hr : n % 1000 = 0
    · simp [hr]
      omega
    · simp [hr]
      omega
  · rw [hcs]
    by_cases hr : n % 1000 = 0
    · simp [hr, List.sum_replicate, smul_eq_mul]
      omega
    · simp [hr, List.sum_replicate, smul_eq_mul]
      omega
  · intro i hi
    simp only [hcs] at hi ⊢
    have hlen := hi
    simp only [List.length_append, List.length_replicate] at hlen
    have hiq : i < n / 1000 := by
      by_cases hr : n % 1000 = 0
      · simp [hr] at hlen
        omega
      · simp [hr] at hlen
        omega
    rw [List.getElem_append_left (by simpa using hiq), List.getElem_replicate]
  · simp only [hcs]
    by_cases hr : n % 1000 = 0
    · have hL : (List.replicate (n / 1000) 1000 ++
          if n % 1000 ≠ 0 then [n % 1000] else []) = List.replicate (n / 1000) 1000 := by
        simp [hr]
      simp only [hL]
      have hq : 1 ≤ n / 1000 := by omega
      refine ⟨by simp [List.length_replicate]; omega, ?_, ?_⟩
      · rw [List.getElem_replicate]
        omega
      · rw [List.getElem_replicate]
    · have hL : (List.replicate (n / 1000) 1000 ++
          if n % 1000 ≠ 0 then [n % 1000] else []) =
          List.replicate (n / 1000) 1000 ++ [n % 1000] := by
        simp [hr]
      simp only [hL]
      have hlen : (List.replicate (n / 1000) 1000 ++ [n % 1000]).length - 1 =
          (List.replicate (n / 1000) 1000).length := by
        simp
      refine ⟨by simp, ?_, ?_⟩
      · simp only [hlen, List.getElem_concat_length]
        omega
      · simp only [hlen, List.getElem_concat_length]
        omega

theorem chunking_correct_witness :
    compute_chunk_sizes 1001 1000 = [1000, 1] ∧
    (compute_chunk_sizes 1001 CHUNK_SIZE).sum = 1001 ∧
    compute_chunk_sizes 1 1000 = [1] ∧
    compute_chunk_sizes 1000 1000 = [1000] := by
  refine ⟨by decide, (chunking_correct 1001 (by omega)).2.2.1, by decide, by decide⟩

/-- C6: Hydration round-trips chunk sizes.  For every `total_points = n >= 1`
and `total_chunks = ceil(n / CHUNK_SIZE)`, the chunk-size list rebuilt by
`_hydrate_job_record_from_db` equals the upload-time list from
`compute_chunk_sizes` (and hence, by `chunking_correct`, from
`chunk_generator`). -/
theorem hydrate_roundtrip (n : Nat) (h : 1 ≤ n) :
    hydrateChunkSizes n ((n + CHUNK_SIZE - 1) / CHUNK_SIZE) =
      compute_chunk_sizes n CHUNK_SIZE := by
  unfold hydrateChunkSizes CHUNK_SIZE
  have hcs : compute_chunk_sizes n 1000 =
      List.replicate (n / 1000) 1000 ++ (if n % 1000 ≠ 0 then [n % 1000] else []) := by
    unfold compute_chunk_sizes
    rw [if_neg (by omega)]
  rw [hcs]
  by_cases htc : (n + 1000 - 1) / 1000 = 1
  · rw [if_pos htc]
    by_cases hr : n % 1000 = 0
    · have hn : n = 1000 := by omega
      subst hn
      decide
    · have hq : n / 1000 = 0 := by omega
      simp [hr, hq]
      omega
  · rw [if_neg htc]
    have htc1 : 0 < (n + 1000 - 1) / 1000 := by omega
    rw [if_pos htc1]
    by_cases hr : n % 1000 = 0
    · have he : (n + 1000 - 1) / 1000 = n / 1000 := by omega
      rw [he]
      have hv : n - 1000 * (n / 1000 - 1) = 1000 := by omega
      rw [hv]
      simp only [hr, ne_eq, not_true_eq_false, if_false, List.append_nil]
      rw [← List.replicate_succ']
      congr 1
      omega
    · have he : (n + 1000 - 1) / 1000 = n / 1000 + 1 := by omega
      rw [he]
      simp only [Nat.add_sub_cancel]
      have hv : n - 1000 * (n / 1000) = n % 1000 := by omega
      rw [hv]
      simp [hr]

theorem hydrate_roundtrip_witness :
    hydrateChunkSizes 2500 ((2500 + CHUNK_SIZE - 1) / CHUNK_SIZE) =
      compute_chunk_sizes 2500 CHUNK_SIZE ∧
    hydrateChunkSizes 2500 3 = [1000, 1000, 500] :=
  ⟨hydrate_roundtrip 2500 (by omega), by decide⟩

theorem enforce_removed_sorted (sz : JobRecord → Nat) (maxBytes : Nat) (s : Store) :
    List.Sorted (fun a b => evictKey a ≤ evictKey b) (enforce sz maxBytes s).2 := by
  unfold enforce
  split
  · simp
  · exact enforceFuel_removed_sorted sz maxBytes s.length s

theorem enforce_stop (sz : JobRecord → Nat) (maxBytes : Nat) (s : Store) :
    maxBytes = 0 ∨ memUsage sz (enforce sz maxBytes s).1 ≤ maxBytes ∨
      ∀ x ∈ (enforce sz maxBytes s).1, x.status.isTerminal = false := by
  unfold enforce
  split
  · left; assumption
  · right
    exact enforceFuel_stop sz maxBytes s.length s (Nat.le_refl _)

/-- C7: Non-terminal entries survive eviction.  Every invocation of the
memory-pressure guard keeps every queued/processing entry unmodified,
removes only terminal entries, removes them in ascending
`finished_at | last_updated_at | created_at` order, loses no entry except
the removed ones (the survivors plus the removed are a permutation of the
input), and stops once the byte budget is met (or is disabled) or no
terminal entries remain. -/
theorem eviction_preserves_active (sz : JobRecord → Nat) (maxBytes : Nat) (s : Store) :
    (∀ j, j ∈ s → j.status.isTerminal = false → j ∈ (enforce sz maxBytes s).1) ∧
    (∀ j, j ∈ (enforce sz maxBytes s).2 → j.status.isTerminal = true) ∧
    List.Sorted (fun a b => evictKey a ≤ evictKey b) (enforce sz maxBytes s).2 ∧
    ((enforce sz maxBytes s).1 ++ (enforce sz maxBytes s).2).Perm s ∧
    (maxBytes = 0 ∨ memUsage sz (enforce sz maxBytes s).1 ≤ maxBytes ∨
      ∀ x ∈ (enforce sz maxBytes s).1, x.status.isTerminal = false) :=
  ⟨fun j hj ht => mem_enforce_of_not_terminal sz maxBytes s j hj ht,
   enforce_removed_terminal sz maxBytes s,
   enforce_removed_sorted sz maxBytes s,
   enforce_perm sz maxBytes s,
   enforce_stop sz maxBytes s⟩

theorem eviction_preserves_active_witness :
    mkJob "q" JStatus.queued 5 5 none ∈
      (enforce (fun _ => 1) 1000
        [mkJob "q" JStatus.queued 5 5 none,
         mkJob "d" JStatus.failed 1 1 (some 2)]).1 :=
  (eviction_preserves_active (fun _ => 1) 1000
    [mkJob "q" JStatus.queued 5 5 none, mkJob "d" JStatus.failed 1 1 (some 2)]).1
    (mkJob "q" JStatus.queued 5 5 none) (by simp) rfl

/-- C9 counterexample: a cache mutation (here `update_job` on another job)
runs only the memory guard, so a terminal entry far older than the
retention TTL of 300 seconds survives the mutation, contradicting the
claim that every mutation evicts stale terminal entries. -/
theorem ttl_not_enforced_on_mutation_cex :
    ∃ j ∈ update_job (fun _ => 1) 1000000
        [mkJob "stale" JStatus.failed 1 1 (some 10),
         mkJob "a" JStatus.queued 5 5 none]
        "a" (fun r => { r with status := JStatus.processing }) 100000,
      j.status.isTerminal = true ∧ 300 < 100000 - evictKey j := by
  decide

/-- C9 amended: TTL eviction happens on `cleanup_finished` (which every
endpoint calls), not on every cache mutation: after any `cleanup_finished`
call no terminal entry older than `job_retention_seconds` remains, while a
plain mutation only runs the memory-pressure guard and can leave stale
terminal entries in place. -/
theorem cleanup_finished_ttl (sz : JobRecord → Nat) (maxBytes ttl : Nat)
    (s : Store) (now : Nat) :
    ∀ j ∈ (cleanup_finished sz maxBytes ttl s now).1,
      j.status.isTerminal = true → now - evictKey j ≤ ttl := by
  intro j hj ht
  unfold cleanup_finished at hj
  have hj2 : j ∈ List.filter
      (fun j => !(j.status.isTerminal && decide (ttl < now - evictKey j))) s :=
    (enforce_sublist sz maxBytes _).subset hj
  have hkeep := (List.mem_filter.mp hj2).2
  simp [ht] at hkeep
  omega

theorem cleanup_finished_ttl_witness :
    100000 - evictKey (mkJob "t" JStatus.failed 99990 99990 (some 99990)) ≤ 300 := by
  have h := cleanup_finished_ttl (fun _ => 1) 1000000 300
    [mkJob "t" JStatus.failed 99990 99990 (some 99990)] 100000
  exact h (mkJob "t" JStatus.failed 99990 99990 (some 99990)) (by decide) rfl

/-- C4 counterexample: `update_job` has no terminal guard, so a later store
operation (as the driver's exception handler performs when the durable
terminal write raises) overwrites a `completed` record with `failed`,
changing its fields after it reached a terminal state. -/
theorem terminal_not_absorbing_cex :
    (mkJob "j" JStatus.completed 1 5 (some 5)).status.isTerminal = true ∧
    (findJob (update_job (fun _ => 1) 1000000
        [mkJob "j" JStatus.completed 1 5 (some 5)] "j"
        (fun r => { r with
                    status := JStatus.failed
                    finished_at := some 50
                    error_message := some "Background processing failed: db down" }) 60)
      "j").map JobRecord.status = some JStatus.failed ∧
    findJob (update_job (fun _ => 1) 1000000
        [mkJob "j" JStatus.completed 1 5 (some 5)] "j"
        (fun r => { r with
                    status := JStatus.failed
                    finished_at := some 50
                    error_message := some "Background processing failed: db down" }) 60)
      "j" ≠ some (mkJob "j" JStatus.completed 1 5 (some 5)) := by
  decide

theorem update_job_matching_prop (sz : JobRecord → Nat) (maxBytes : Nat)
    (s : Store) (jid : String) (g : JobRecord → JobRecord) (now : Nat)
    (P : JobRecord → Prop)
    (hgP : ∀ x, P { g x with last_updated_at := now }) :
    ∀ r ∈ update_job sz maxBytes s jid g now, (r.job_id == jid) = true → P r := by
  intro r hr hid
  unfold update_job at hr
  cases hf : findJob s jid with
  | none =>
    simp only [hf] at hr
    unfold findJob at hf
    rw [List.find?_eq_none] at hf
    exact absurd hid (by simpa using hf r hr)
  | some x =>
    simp only [hf] at hr
    have hr2 : r ∈ List.map
        (updIf jid (fun j => { g j with last_updated_at := now })) s :=
      (enforce_sublist sz maxBytes _).subset hr
    obtain ⟨y, hy, hyr⟩ := List.mem_map.mp hr2
    unfold updIf at hyr
    by_cases hyid : (y.job_id == jid) = true
    · rw [if_pos hyid] at hyr
      rw [← hyr]
      exact hgP y
    · rw [if_neg hyid] at hyr
      rw [← hyr] at hid
      exact absurd hid hyid

/-- C4 amended: the cache layer itself has no terminal guard (see the
counterexample), but on the driver's non-exceptional path terminal states
are absorbing: every record of the final cache state was already present,
unmodified, just after the driver's terminal `update_job` (the only
remaining operation, `enforce_memory_limit`, can drop whole entries but
never edits one), and at that point every record with the driver's job id
carries a terminal status. -/
theorem terminal_absorbing_amended {α : Type} (sz : JobRecord → Nat)
    (maxBytes : Nat) (jid : String) (coords : List α) (outs : List Outcome)
    (chunkTimeoutSeconds now : Nat) (s : Store) (db : DbState) :
    (∀ r, r ∈ (processJob sz maxBytes jid coords outs chunkTimeoutSeconds now s db).1 →
      r ∈ (processJobAfterTerminal sz maxBytes jid coords outs chunkTimeoutSeconds now s db).1) ∧
    (∀ r, r ∈ (processJobAfterTerminal sz maxBytes jid coords outs chunkTimeoutSeconds now s db).1 →
      (r.job_id == jid) = true → r.status.isTerminal = true) := by
  constructor
  · intro r hr
    simp only [processJob] at hr
    exact (enforce_sublist sz maxBytes _).subset hr
  · intro r hr hid
    simp only [processJobAfterTerminal] at hr
    refine update_job_matching_prop sz maxBytes _ jid _ now
      (fun x => x.status.isTerminal = true) ?_ r hr hid
    intro x
    simp only
    cases (driverLoop sz maxBytes jid chunkTimeoutSeconds now 0
        ((chunk_generator coords CHUNK_SIZE).zip outs)
        (update_job sz maxBytes s jid
          (fun j => { j with
                      status := JStatus.processing
                      started_at := some now
                      error_message := none }) now,
         db_update_job_status db jid "processing" true false none now, false)).2.2 <;> rfl

theorem terminal_absorbing_amended_witness :
    ((processJobAfterTerminal (fun _ => 0) 1000 "j" ([] : List Nat) [] 30 7
        [mkJob "j" JStatus.queued 1 1 none] ⟨[], []⟩).1.all
      (fun r => !(r.job_id == "j") || r.status.isTerminal)) = true := by
  have h := (terminal_absorbing_amended (fun _ => 0) 1000 "j" ([] : List Nat) [] 30 7
    [mkJob "j" JStatus.queued 1 1 none] ⟨[], []⟩).2
  rw [List.all_eq_true]
  intro r hr
  by_cases hid : (r.job_id == "j") = true
  · simp [h r hr hid]
  · have hid2 : (r.job_id == "j") = false := by simpa using hid
    simp [hid2]

/-- C8: Estimated cost rule.  Every successful `compute_route` with distinct
source and target road nodes reports the aggregate row's distance and edge
count and sets `estimated_cost` to the path's cost sum when that sum is
non-zero, falling back to `distance * DEFAULT_COST_PER_METER` (700.0) when
it is zero; in the degenerate `source = target` case it returns distance 0,
cost 0 and edge count 0. -/
theorem estimated_cost_rule (env : GeoEnv) (lon lat : ℚ) (out : RouteOut)
    (h : compute_route env default_cost_per_meter lon lat = Except.ok out) :
    (out.source_road_node_id ≠ out.target_road_node_id →
      ∃ row, env.route_query out.franchise_id out.source_road_node_id
          out.target_road_node_id = some row ∧
        out.distance_meters = row.distance_meters ∧
        out.edge_count = row.edge_count ∧
        out.estimated_cost = (if row.deployment_cost = 0
          then row.distance_meters * default_cost_per_meter
          else row.deployment_cost)) ∧
    (out.source_road_node_id = out.target_road_node_id →
      out.distance_meters = 0 ∧ out.estimated_cost = 0 ∧ out.edge_count = 0) := by
  unfold compute_route at h
  cases h1 : env.resolve_franchise lon lat with
  | none => simp [h1] at h
  | some fid =>
  simp only [h1] at h
  cases h2 : env.nearest_fiber_node fid lon lat with
  | none => simp [h2] at h
  | some nid =>
  simp only [h2] at h
  cases h3 : env.fiber_node_coordinates nid with
  | none => simp [h3] at h
  | some fc =>
  simp only [h3] at h
  cases h4 : env.nearest_road_node fid lon lat with
  | none => simp [h4] at h
  | some src =>
  simp only [h4] at h
  cases h5 : env.nearest_road_node fid fc.1 fc.2 with
  | none => simp [h5] at h
  | some tgt =>
  simp only [h5] at h
  by_cases hst : src = tgt
  · rw [if_pos hst] at h
    cases h6 : env.road_node_coordinates fid src with
    | none => simp [h6] at h
    | some rn =>
    simp only [h6] at h
    have hout := Except.ok.inj h
    subst hout
    constructor
    · intro hne
      exact absurd hst hne
    · intro _
      exact ⟨rfl, rfl, rfl⟩
  · rw [if_neg hst] at h
    cases h6 : env.route_query fid src tgt with
    | none => simp [h6] at h
    | some row =>
    simp only [h6] at h
    split at h
    · simp at h
    · have hout := Except.ok.inj h
      subst hout
      constructor
      · intro _
        exact ⟨row, h6, rfl, rfl, rfl⟩
      · intro heq
        exact absurd heq hst

theorem estimated_cost_rule_witness :
    sampleRouteOut.estimated_cost =
      sampleRouteRow.distance_meters * default_cost_per_meter := by
  have hev : compute_route sampleGeoEnv default_cost_per_meter 0 0 =
      Except.ok sampleRouteOut := by
    simp [compute_route, sampleGeoEnv, sampleRouteRow, sampleRouteOut,
      default_cost_per_meter]
    norm_num
  have h := estimated_cost_rule sampleGeoEnv 0 0 sampleRouteOut hev
  obtain ⟨row, hq, hd, he, hc⟩ := h.1 (by decide)
  have h2 : some row = some sampleRouteRow := hq.symm.trans (by rfl)
  have hrow := Option.some.inj h2
  rw [hrow] at hc
  rw [hc, if_pos (by decide)]

theorem appendTransform_avg (item : ChunkResult) (failed : Bool) (now : Nat)
    (r : JobRecord)
    (h : r.average_chunk_duration * (r.processed_chunks : ℚ) =
      (r.total_processing_time : ℚ)) :
    ({ appendTransform item failed r with last_updated_at := now }).average_chunk_duration *
      (({ appendTransform item failed r with last_updated_at := now }).processed_chunks : ℚ) =
      (({ appendTransform item failed r with last_updated_at := now }).total_processing_time : ℚ) := by
  unfold appendTransform
  simp only
  have hmax : max (r.processed_chunks + 1) 1 = r.processed_chunks + 1 := by omega
  rw [hmax]
  have hne : ((r.processed_chunks + 1 : Nat) : ℚ) ≠ 0 := by
    push_cast
    positivity
  rw [div_mul_cancel₀ _ hne]
  push_cast
  ring_nf
  ring_nf at h
  linarith [h]

theorem foldRec_fields (now : Nat) (calls : List (ChunkResult × Bool)) :
    ∀ r0 : JobRecord,
      ((calls.foldl (fun r c =>
          { appendTransform c.1 c.2 r with last_updated_at := now }) r0).results =
        r0.results ++ calls.map Prod.fst) ∧
      ((calls.foldl (fun r c =>
          { appendTransform c.1 c.2 r with last_updated_at := now }) r0).processed_chunks =
        r0.processed_chunks + calls.length) ∧
      ((calls.foldl (fun r c =>
          { appendTransform c.1 c.2 r with last_updated_at := now }) r0).failed_chunks =
        r0.failed_chunks + calls.countP (fun c => c.2)) ∧
      ((calls.foldl (fun r c =>
          { appendTransform c.1 c.2 r with last_updated_at := now }) r0).total_processing_time =
        r0.total_processing_time + (calls.map (fun c => pyOrI c.1.duration_ms)).sum) ∧
      ((calls.foldl (fun r c =>
          { appendTransform c.1 c.2 r with last_updated_at := now }) r0).max_chunk_duration =
        (calls.map (fun c => pyOrI c.1.duration_ms)).foldl max r0.max_chunk_duration) ∧
      ((calls.foldl (fun r c =>
          { appendTransform c.1 c.2 r with last_updated_at := now }) r0).status =
        r0.status) ∧
      ((calls.foldl (fun r c =>
          { appendTransform c.1 c.2 r with last_updated_at := now }) r0).job_id =
        r0.job_id) := by
  induction calls with
  | nil => intro r0; simp
  | cons c rest ih =>
    intro r0
    simp only [List.foldl_cons, List.map_cons, List.countP_cons, List.length_cons,
      List.sum_cons]
    obtain ⟨h1, h2, h3, h4, h5, h6, h7⟩ :=
      ih { appendTransform c.1 c.2 r0 with last_updated_at := now }
    refine ⟨?_, ?_, ?_, ?_, ?_, ?_, ?_⟩
    · rw [h1]
      show r0.results ++ [c.1] ++ rest.map Prod.fst = _
      simp
    · rw [h2]
      show r0.processed_chunks + 1 + rest.length = _
      omega
    · rw [h3]
      show r0.failed_chunks + (if c.2 then 1 else 0) + rest.countP (fun c => c.2) = _
      by_cases hc : c.2 = true
      · simp [hc]
        omega
      · simp only [Bool.not_eq_true] at hc
        simp [hc]
    · rw [h4]
      show r0.total_processing_time + pyOrI c.1.duration_ms + _ = _
      omega
    · rw [h5]
      rfl
    · rw [h6]
      rfl
    · rw [h7]
      rfl

theorem foldRec_avg (now : Nat) (calls : List (ChunkResult × Bool)) :
    ∀ r0 : JobRecord,
      r0.average_chunk_duration * (r0.processed_chunks : ℚ) =
        (r0.total_processing_time : ℚ) →
      ((calls.foldl (fun r c =>
          { appendTransform c.1 c.2 r with last_updated_at := now }) r0).average_chunk_duration *
        ((calls.foldl (fun r c =>
          { appendTransform c.1 c.2 r with last_updated_at := now }) r0).processed_chunks : ℚ) =
        ((calls.foldl (fun r c =>
          { appendTransform c.1 c.2 r with last_updated_at := now }) r0).total_processing_time : ℚ)) := by
  induction calls with
  | nil => intro r0 h; simpa using h
  | cons c rest ih =>
    intro r0 h
    simp only [List.foldl_cons]
    exact ih _ (appendTransform_avg c.1 c.2 now r0 h)

theorem foldl_append_result (sz : JobRecord → Nat) (maxBytes : Nat)
    (HB : ∀ t, memUsage sz t ≤ maxBytes) (jid : String) (now : Nat)
    (calls : List (ChunkResult × Bool)) :
    ∀ (s : Store) (r0 : JobRecord), findJob s jid = some r0 →
      findJob (calls.foldl (fun t c => append_result sz maxBytes t jid c.1 c.2 now) s) jid =
        some (calls.foldl (fun r c =>
          { appendTransform c.1 c.2 r with last_updated_at := now }) r0) := by
  induction calls with
  | nil => intro s r0 h; simpa using h
  | cons c rest ih =>
    intro s r0 h
    simp only [List.foldl_cons]
    apply ih
    rw [findJob_append_result sz maxBytes s jid c.1 c.2 now HB, h]
    rfl

theorem find?_map_condUpd {β : Type} (idOf : β → String) (g : β → β) (jid : String)
    (hg : ∀ x, idOf (g x) = idOf x) (l : List β) :
    List.find? (fun x => idOf x == jid)
        (List.map (fun x => if idOf x == jid then g x else x) l) =
      (List.find? (fun x => idOf x == jid) l).map g := by
  induction l with
  | nil => rfl
  | cons x rest ih =>
    by_cases hx : (idOf x == jid) = true
    · have h2 : (idOf (if idOf x == jid then g x else x) == jid) = true := by
        rw [if_pos hx, hg x]
        exact hx
      simp only [List.map_cons, List.find?] at ih ⊢
      rw [h2, hx]
      simp [hx]
    · have hx2 : (idOf x == jid) = false := by simpa using hx
      have h2 : (idOf (if idOf x == jid then g x else x) == jid) = false := by
        rw [if_neg hx]
        exact hx2
      simp only [List.map_cons, List.find?] at ih ⊢
      rw [h2, hx2]
      exact ih

theorem dbFindJob_persist (db : DbState) (jid : String) (idx pts : Nat)
    (st : String) (err : Option String) (dur : Int) :
    dbFindJob (db_persist_chunk_result db jid idx pts st err dur) jid =
      (dbFindJob db jid).map (fun j =>
        { j with
          processed_chunks := j.processed_chunks + 1
          failed_chunks := j.failed_chunks + (if st == "failed" then 1 else 0) }) := by
  unfold dbFindJob db_persist_chunk_result
  exact find?_map_condUpd DbJob.job_id
    (fun j => { j with processed_chunks := j.processed_chunks + 1
                       failed_chunks := j.failed_chunks +
                         (if st == "failed" then 1 else 0) })
    jid (fun x => rfl) db.jobs

theorem dbRowsFor_persist (db : DbState) (jid : String) (idx pts : Nat)
    (st : String) (err : Option String) (dur : Int) :
    dbRowsFor (db_persist_chunk_result db jid idx pts st err dur) jid =
      dbRowsFor db jid ++
        [{ job_id := jid, chunk_index := idx, processed_points := pts,
           status := st, error_message := err, duration_ms := dur }] := by
  unfold dbRowsFor db_persist_chunk_result
  rw [List.filter_append]
  simp

theorem foldl_persist_chunk_result (jid : String) (rows : List DbChunkRow) :
    ∀ (db : DbState) (j0 : DbJob), dbFindJob db jid = some j0 →
      ∃ j1, dbFindJob (rows.foldl (fun d c => db_persist_chunk_result d jid
          c.chunk_index c.processed_points c.status c.error_message c.duration_ms) db)
          jid = some j1 ∧
        j1.processed_chunks = j0.processed_chunks + rows.length ∧
        j1.failed_chunks = j0.failed_chunks + rows.countP (fun c => c.status == "failed") ∧
        dbRowsFor (rows.foldl (fun d c => db_persist_chunk_result d jid
          c.chunk_index c.processed_points c.status c.error_message c.duration_ms) db)
          jid = dbRowsFor db jid ++ rows.map (fun c => { c with job_id := jid }) := by
  induction rows with
  | nil =>
    intro db j0 h
    exact ⟨j0, by simpa using h, rfl, rfl, by simp⟩
  | cons c rest ih =>
    intro db j0 h
    simp only [List.foldl_cons]
    have hfind2 : dbFindJob (db_persist_chunk_result db jid c.chunk_index
        c.processed_points c.status c.error_message c.duration_ms) jid =
        some { j0 with
               processed_chunks := j0.processed_chunks + 1
               failed_chunks := j0.failed_chunks +
                 (if c.status == "failed" then 1 else 0) } := by
      rw [dbFindJob_persist, h]
      rfl
    obtain ⟨j1, hf, hp, hfl, hrows⟩ := ih _ _ hfind2
    refine ⟨j1, hf, ?_, ?_, ?_⟩
    · rw [hp]
      simp only [List.length_cons]
      omega
    · rw [hfl]
      simp only [List.countP_cons]
      by_cases hc : (c.status == "failed") = true
      · simp only [hc, if_true]
        omega
      · have hc2 : (c.status == "failed") = false := by simpa using hc
        simp only [hc2, if_false]
        omega
    · rw [hrows, dbRowsFor_persist]
      simp

/-- C3: Chunk counters equal result counts.  In the cache, a record built by
`create_job_if_capacity` (fresh record) followed by any `append_result`
sequence has `processed_chunks` equal to the number of recorded results and
`failed_chunks` equal to the number of appends with the `failed` flag —
which equals the number of results with status `"failed"` whenever the flag
is passed consistently with the item status, as the driver does.  In the
durable layer, a fresh `batch_jobs` row followed by any
`persist_chunk_result` sequence has `processed_chunks` equal to its number
of chunk rows and `failed_chunks` equal to its number of `'failed'` rows. -/
theorem chunk_counters_match
    (sz : JobRecord → Nat) (maxBytes : Nat) (HB : ∀ t, memUsage sz t ≤ maxBytes)
    (jid : String) (now total_points : Nat) (chunk_sizes : List Nat)
    (calls : List (ChunkResult × Bool)) (db0 : DbState) (j0 : DbJob)
    (rows : List DbChunkRow) (hdb : dbFindJob db0 jid = some j0)
    (hp0 : j0.processed_chunks = 0) (hf0 : j0.failed_chunks = 0)
    (hr0 : dbRowsFor db0 jid = []) :
    (∃ r, findJob (calls.foldl (fun t c => append_result sz maxBytes t jid c.1 c.2 now)
          [newJobRecord jid now total_points chunk_sizes]) jid = some r ∧
        r.results = calls.map Prod.fst ∧
        r.processed_chunks = r.results.length ∧
        r.failed_chunks = calls.countP (fun c => c.2) ∧
        ((∀ c ∈ calls, c.2 = (c.1.status == "failed")) →
          r.failed_chunks =
            (r.results.filter (fun it => it.status == "failed")).length)) ∧
    (∃ j1, dbFindJob (rows.foldl (fun d c => db_persist_chunk_result d jid
          c.chunk_index c.processed_points c.status c.error_message c.duration_ms) db0)
          jid = some j1 ∧
        j1.processed_chunks = (dbRowsFor (rows.foldl (fun d c =>
          db_persist_chunk_result d jid c.chunk_index c.processed_points c.status
          c.error_message c.duration_ms) db0) jid).length ∧
        j1.failed_chunks = ((dbRowsFor (rows.foldl (fun d c =>
          db_persist_chunk_result d jid c.chunk_index c.processed_points c.status
          c.error_message c.duration_ms) db0) jid).filter
            (fun rw2 => rw2.status == "failed")).length) := by
  have h0 : findJob [newJobRecord jid now total_points chunk_sizes] jid =
      some (newJobRecord jid now total_points chunk_sizes) := by
    simp [findJob, newJobRecord]
  obtain ⟨hres, hp, hf, htot, hmax, hst, hid⟩ :=
    foldRec_fields now calls (newJobRecord jid now total_points chunk_sizes)
  constructor
  · refine ⟨_, foldl_append_result sz maxBytes HB jid now calls _ _ h0, ?_, ?_, ?_, ?_⟩
    · simpa [newJobRecord] using hres
    · rw [hp, hres]
      have e1 : (newJobRecord jid now total_points chunk_sizes).processed_chunks = 0 := rfl
      have e2 : (newJobRecord jid now total_points chunk_sizes).results = [] := rfl
      rw [e1, e2]
      simp
    · simpa [newJobRecord] using hf
    · intro hcons
      rw [hf, hres]
      have e2 : (newJobRecord jid now total_points chunk_sizes).results = [] := rfl
      have e3 : (newJobRecord jid now total_points chunk_sizes).failed_chunks = 0 := rfl
      rw [e2, e3, List.nil_append, Nat.zero_add]
      have hrw : (((List.map Prod.fst calls).filter
          (fun it => it.status == "failed")).length : Nat) =
          List.countP ((fun it : ChunkResult => it.status == "failed") ∘ Prod.fst) calls := by
        rw [← List.countP_eq_length_filter, List.countP_map]
      rw [hrw]
      apply List.countP_congr
      intro c hc
      rw [Function.comp_apply, ← hcons c hc]
  · obtain ⟨j1, hfind, hp1, hf1, hrows⟩ := foldl_persist_chunk_result jid rows db0 j0 hdb
    refine ⟨j1, hfind, ?_, ?_⟩
    · rw [hp1, hrows, hr0, hp0]
      simp
    · rw [hf1, hrows, hr0, hf0]
      have hrw : ((((List.map (fun c => { c with job_id := jid }) rows)).filter
          (fun rw2 => rw2.status == "failed")).length : Nat) =
          List.countP ((fun rw2 : DbChunkRow => rw2.status == "failed") ∘
            (fun c => { c with job_id := jid })) rows := by
        rw [← List.countP_eq_length_filter, List.countP_map]
      simp only [List.nil_append, hrw, Nat.zero_add]
      exact List.countP_congr (fun c hc => Iff.rfl)

theorem memUsage_const_zero (t : Store) : memUsage (fun _ => 0) t = 0 := by
  induction t with
  | nil => rfl
  | cons j rest ih =>
    simp only [memUsage, List.map_cons, List.sum_cons] at ih ⊢
    omega

theorem chunk_counters_match_witness :
    (findJob ((([(sampleOkItem, false), (sampleFailedItem, true)] :
        List (ChunkResult × Bool)).foldl
        (fun t c => append_result (fun _ => 0) 5 t "j" c.1 c.2 9)
        [newJobRecord "j" 9 2 [1, 1]])) "j").map
      (fun r => (r.processed_chunks, r.failed_chunks, r.results.length)) =
      some (2, 1, 2) := by
  have h := chunk_counters_match (fun _ => 0) 5
    (fun t => by rw [memUsage_const_zero]; exact Nat.zero_le 5) "j" 9 2 [1, 1]
    [(sampleOkItem, false), (sampleFailedItem, true)]
    (db_create_job ⟨[], []⟩ "j" 2 2 "queued" 0)
    { job_id := "j", total_points := 2, total_chunks := 2, processed_chunks := 0,
      failed_chunks := 0, status := "queued", created_at := 0, started_at := none,
      finished_at := none, error_message := none } [] (by rfl) rfl rfl (by rfl)
  obtain ⟨⟨r, hfind, hres, hp, hf, hcons⟩, _⟩ := h
  rw [hfind]
  show some (r.processed_chunks, r.failed_chunks, r.results.length) = some (2, 1, 2)
  have h1 : r.results.length = 2 := by rw [hres]; rfl
  have h2 : r.processed_chunks = 2 := by rw [hp, h1]
  have h3 : r.failed_chunks = 1 := by rw [hf]; rfl
  rw [h2, h3, h1]

/-- C10: Rolling aggregates are consistent.  For a cache entry built by
`create_job_if_capacity` followed by `append_result` calls,
`total_processing_time` is the sum of `int(duration_ms or 0)` over the
results, `max_chunk_duration` is their running maximum starting from 0,
`average_chunk_duration * processed_chunks = total_processing_time`
(durations and the average modelled as exact numbers), and
`max_chunk_duration` never decreases across an append. -/
theorem rolling_aggregates_consistent
    (sz : JobRecord → Nat) (maxBytes : Nat) (HB : ∀ t, memUsage sz t ≤ maxBytes)
    (jid : String) (now total_points : Nat) (chunk_sizes : List Nat)
    (max_active_jobs : Nat) (hA : 0 < max_active_jobs)
    (calls : List (ChunkResult × Bool)) :
    (∃ r, findJob (calls.foldl (fun t c => append_result sz maxBytes t jid c.1 c.2 now)
          (create_job_if_capacity sz maxBytes [] jid now total_points chunk_sizes
            max_active_jobs).2) jid = some r ∧
        r.total_processing_time = (calls.map (fun c => pyOrI c.1.duration_ms)).sum ∧
        r.max_chunk_duration = (calls.map (fun c => pyOrI c.1.duration_ms)).foldl max 0 ∧
        r.average_chunk_duration * (r.processed_chunks : ℚ) =
          (r.total_processing_time : ℚ)) ∧
    (∀ (s : Store) (item : ChunkResult) (failed : Bool) (now2 : Nat) (r1 : JobRecord),
      findJob s jid = some r1 →
      ∃ r2, findJob (append_result sz maxBytes s jid item failed now2) jid = some r2 ∧
        r1.max_chunk_duration ≤ r2.max_chunk_duration) := by
  constructor
  · have hcr : (create_job_if_capacity sz maxBytes [] jid now total_points chunk_sizes
        max_active_jobs).2 = [newJobRecord jid now total_points chunk_sizes] := by
      unfold create_job_if_capacity
      rw [if_neg (by simp [activeCount]; omega)]
      simp only
      rw [show insertJob [] (newJobRecord jid now total_points chunk_sizes) =
        [newJobRecord jid now total_points chunk_sizes] from rfl]
      rw [enforce_id_of_budget sz maxBytes _ (HB _)]
    rw [hcr]
    have h0 : findJob [newJobRecord jid now total_points chunk_sizes] jid =
        some (newJobRecord jid now total_points chunk_sizes) := by
      simp [findJob, newJobRecord]
    obtain ⟨hres, hp, hf, htot, hmax, hst, hid⟩ :=
      foldRec_fields now calls (newJobRecord jid now total_points chunk_sizes)
    refine ⟨_, foldl_append_result sz maxBytes HB jid now calls _ _ h0, ?_, ?_, ?_⟩
    · simpa [newJobRecord] using htot
    · rw [hmax]
      rfl
    · exact foldRec_avg now calls _ (by simp [newJobRecord])
  · intro s item failed now2 r1 hfind
    refine ⟨{ appendTransform item failed r1 with last_updated_at := now2 }, ?_, ?_⟩
    · rw [findJob_append_result sz maxBytes s jid item failed now2 HB, hfind]
      rfl
    · exact le_max_left _ _

theorem rolling_aggregates_witness :
    (findJob ((([(sampleOkItem, false), (sampleFailedItem, true)] :
        List (ChunkResult × Bool)).foldl
        (fun t c => append_result (fun _ => 0) 5 t "j" c.1 c.2 9)
        (create_job_if_capacity (fun _ => 0) 5 [] "j" 9 2 [1, 1] 5).2)) "j").map
      (fun r => (r.total_processing_time, r.max_chunk_duration)) = some (12, 7) := by
  have h := rolling_aggregates_consistent (fun _ => 0) 5
    (fun t => by rw [memUsage_const_zero]; exact Nat.zero_le 5) "j" 9 2 [1, 1] 5
    (by omega) [(sampleOkItem, false), (sampleFailedItem, true)]
  obtain ⟨⟨r, hfind, htot, hmax, _⟩, _⟩ := h
  rw [hfind]
  show some (r.total_processing_time, r.max_chunk_duration) = some (12, 7)
  have h1 : r.total_processing_time = 12 := by rw [htot]; decide
  have h2 : r.max_chunk_duration = 7 := by rw [hmax]; decide
  rw [h1, h2]

theorem driverChunk_flag (ts idx len : Nat) (o : Outcome) :
    (driverChunk ts idx len o).2.1 = outcomeFailed o := by
  cases o with
  | ok p d =>
    simp only [driverChunk, outcomeFailed, coerceResult]
    by_cases hx : p.status.getD "ok" = "ok"
    · simp [hx]
    · simp [hx]
  | timeout d => rfl
  | exc m d => rfl

theorem driverLoop_spec {α : Type} (sz : JobRecord → Nat) (maxBytes : Nat)
    (HB : ∀ t, memUsage sz t ≤ maxBytes) (jid : String) (ts now : Nat)
    (L : List (List α × Outcome)) :
    ∀ (idx : Nat) (s : Store) (db : DbState) (had : Bool) (r0 : JobRecord),
      findJob s jid = some r0 →
      findJob (driverLoop sz maxBytes jid ts now idx L (s, db, had)).1 jid =
        some (driverFoldRec ts now idx L r0) ∧
      (driverLoop sz maxBytes jid ts now idx L (s, db, had)).2.2 =
        (had || L.any (fun e => outcomeFailed e.2)) := by
  induction L with
  | nil =>
    intro idx s db had r0 h
    exact ⟨by simpa [driverLoop, driverFoldRec] using h, by simp [driverLoop]⟩
  | cons e rest ih =>
    intro idx s db had r0 h
    obtain ⟨chunk, o⟩ := e
    simp only [driverLoop, driverFoldRec, List.any_cons]
    have hstep : findJob (append_result sz maxBytes s jid
        (driverChunk ts idx chunk.length o).1
        (driverChunk ts idx chunk.length o).2.1 now) jid =
        some { appendTransform (driverChunk ts idx chunk.length o).1
          (driverChunk ts idx chunk.length o).2.1 r0 with last_updated_at := now } := by
      rw [findJob_append_result sz maxBytes s jid _ _ now HB, h]
      rfl
    obtain ⟨h1, h2⟩ := ih (idx + 1) _ _ _ _ hstep
    refine ⟨h1, ?_⟩
    rw [h2, driverChunk_flag, Bool.or_assoc]

theorem driverFoldRec_results {α : Type} (ts now : Nat)
    (L : List (List α × Outcome)) :
    ∀ (idx : Nat) (r0 : JobRecord),
      (driverFoldRec ts now idx L r0).results = r0.results ++ driverItems ts idx L := by
  induction L with
  | nil => intro idx r0; simp [driverFoldRec, driverItems]
  | cons e rest ih =>
    intro idx r0
    obtain ⟨chunk, o⟩ := e
    simp only [driverFoldRec, driverItems]
    rw [ih (idx + 1)]
    show r0.results ++ [(driverChunk ts idx chunk.length o).1] ++
      driverItems ts (idx + 1) rest = _
    simp

theorem driverFoldRec_status {α : Type} (ts now : Nat)
    (L : List (List α × Outcome)) :
    ∀ (idx : Nat) (r0 : JobRecord),
      (driverFoldRec ts now idx L r0).status = r0.status := by
  induction L with
  | nil => intro idx r0; rfl
  | cons e rest ih =>
    intro idx r0
    obtain ⟨chunk, o⟩ := e
    simp only [driverFoldRec]
    rw [ih (idx + 1)]
    rfl

theorem driverItems_length {α : Type} (ts : Nat) (L : List (List α × Outcome)) :
    ∀ idx, (driverItems ts idx L).length = L.length := by
  induction L with
  | nil => intro idx; rfl
  | cons e rest ih =>
    intro idx
    obtain ⟨chunk, o⟩ := e
    simp only [driverItems, List.length_cons]
    rw [ih (idx + 1)]

theorem driverItems_get {α : Type} (ts : Nat) (L : List (List α × Outcome)) :
    ∀ (idx i : Nat) (hi : i < (driverItems ts idx L).length) (hi2 : i < L.length),
      (driverItems ts idx L).get ⟨i, hi⟩ =
        (driverChunk ts (idx + i) ((L.get ⟨i, hi2⟩).1).length (L.get ⟨i, hi2⟩).2).1 := by
  induction L with
  | nil => intro idx i hi hi2; simp at hi2
  | cons e rest ih =>
    intro idx i hi hi2
    obtain ⟨chunk, o⟩ := e
    cases i with
    | zero => simp [driverItems]
    | succ i =>
      have hi3 : i < (driverItems ts (idx + 1) rest).length := by
        simp only [driverItems, List.length_cons] at hi
        omega
      have hi4 : i < rest.length := by
        simp only [List.length_cons] at hi2
        omega
      show (driverItems ts (idx + 1) rest).get ⟨i, hi3⟩ = _
      rw [ih (idx + 1) i hi3 hi4]
      rw [show idx + (i + 1) = idx + 1 + i from by omega]
      rfl

theorem findJob_update_processing (sz : JobRecord → Nat) (maxBytes : Nat)
    (s : Store) (jid : String) (now startedAt : Nat)
    (HB : ∀ t, memUsage sz t ≤ maxBytes) :
    findJob (update_job sz maxBytes s jid
      (fun j => { j with
                  status := JStatus.processing
                  started_at := some startedAt
                  error_message := none }) now) jid =
      (findJob s jid).map (fun j => { j with
        status := JStatus.processing
        started_at := some startedAt
        error_message := none
        last_updated_at := now }) :=
  findJob_update_job sz maxBytes s jid _ now HB (fun j => rfl)

theorem findJob_update_terminal (sz : JobRecord → Nat) (maxBytes : Nat)
    (s : Store) (jid : String) (now : Nat) (st : JStatus) (fin : Option Nat)
    (err : Option String) (HB : ∀ t, memUsage sz t ≤ maxBytes) :
    findJob (update_job sz maxBytes s jid
      (fun j => { j with
                  status := st
                  finished_at := fin
                  error_message := err }) now) jid =
      (findJob s jid).map (fun j => { j with
        status := st
        finished_at := fin
        error_message := err
        last_updated_at := now }) :=
  findJob_update_job sz maxBytes s jid _ now HB (fun j => rfl)

/-- C5: Chunk timeout containment.  If the outcome of chunk `i` is a
timeout, the driver records for it a failed `ChunkResult` whose
`error_message` is exactly `"Chunk timeout after N seconds."` with the
observed duration, still records one result for every chunk of the job
(the loop continues past the timeout), and the job's terminal status is
`failed` with `error_message = "One or more chunks failed."`, never
`completed`.  Stated under a memory budget large enough that the entry is
not evicted while being read back. -/
theorem chunk_timeout_contained {α : Type}
    (sz : JobRecord → Nat) (maxBytes : Nat) (HB : ∀ t, memUsage sz t ≤ maxBytes)
    (jid : String) (coords : List α) (outs : List Outcome)
    (chunkTimeoutSeconds now : Nat) (s : Store) (db : DbState) (r0 : JobRecord)
    (h0 : findJob s jid = some r0) (hres0 : r0.results = [])
    (hlen : outs.length = (chunk_generator coords CHUNK_SIZE).length)
    (i : Nat) (hi : i < outs.length) (d : Int)
    (hto : outs.get ⟨i, hi⟩ = Outcome.timeout d) :
    ∃ r, findJob (processJob sz maxBytes jid coords outs chunkTimeoutSeconds now s db).1
        jid = some r ∧
      r.results.length = (chunk_generator coords CHUNK_SIZE).length ∧
      (∃ (hri : i < r.results.length)
         (hci : i < (chunk_generator coords CHUNK_SIZE).length),
        r.results.get ⟨i, hri⟩ =
          { chunk_index := i,
            processed_points := ((chunk_generator coords CHUNK_SIZE).get ⟨i, hci⟩).length,
            status := "failed",
            error_message := some (timeoutMessage chunkTimeoutSeconds),
            duration_ms := some d }) ∧
      r.status = JStatus.failed ∧
      r.error_message = some "One or more chunks failed." ∧
      r.status ≠ JStatus.completed := by
  simp only [processJob, processJobAfterTerminal]
  have h1 : findJob (update_job sz maxBytes s jid
      (fun j => { j with
                  status := JStatus.processing
                  started_at := some now
                  error_message := none }) now) jid =
      some { r0 with
             status := JStatus.processing
             started_at := some now
             error_message := none
             last_updated_at := now } := by
    rw [findJob_update_processing sz maxBytes s jid now now HB, h0]
    rfl
  obtain ⟨h2find, h2had⟩ := driverLoop_spec sz maxBytes HB jid chunkTimeoutSeconds now
    ((chunk_generator coords CHUNK_SIZE).zip outs) 0 _
    (db_update_job_status db jid "processing" true false none now) false _ h1
  have hiz : i < ((chunk_generator coords CHUNK_SIZE).zip outs).length := by
    rw [List.length_zip]
    omega
  have hany : ((chunk_generator coords CHUNK_SIZE).zip outs).any
      (fun e => outcomeFailed e.2) = true := by
    rw [List.any_eq_true]
    refine ⟨((chunk_generator coords CHUNK_SIZE).zip outs).get ⟨i, hiz⟩,
      List.get_mem _ _ hiz, ?_⟩
    rw [List.get_zip]
    show outcomeFailed (outs.get ⟨i, hi⟩) = true
    rw [hto]
    rfl
  have hhad : (driverLoop sz maxBytes jid chunkTimeoutSeconds now 0
      ((chunk_generator coords CHUNK_SIZE).zip outs)
      (update_job sz maxBytes s jid
        (fun j => { j with
                    status := JStatus.processing
                    started_at := some now
                    error_message := none }) now,
       db_update_job_status db jid "processing" true false none now, false)).2.2 =
      true := by
    rw [h2had, hany]
    rfl
  rw [enforce_id_of_budget sz maxBytes _ (HB _)]
  rw [findJob_update_terminal sz maxBytes _ jid now _ _ _ HB]
  rw [h2find]
  refine ⟨_, rfl, ?_, ?_, ?_, ?_, ?_⟩
  · show (driverFoldRec chunkTimeoutSeconds now 0
      ((chunk_generator coords CHUNK_SIZE).zip outs) _).results.length = _
    rw [driverFoldRec_results]
    rw [List.length_append]
    show r0.results.length + _ = _
    rw [hres0, driverItems_length, List.length_zip]
    simp
    omega
  · have hri : i < ((driverFoldRec chunkTimeoutSeconds now 0
        ((chunk_generator coords CHUNK_SIZE).zip outs)
        { r0 with
          status := JStatus.processing
          started_at := some now
          error_message := none
          last_updated_at := now }).results).length := by
      rw [driverFoldRec_results, List.length_append]
      show r0.results.length + _ > i
      rw [hres0, driverItems_length, List.length_zip]
      simp
      omega
    refine ⟨hri, by omega, ?_⟩
    have hzi : i < ((chunk_generator coords CHUNK_SIZE).zip outs).length := hiz
    have hitems : i < (driverItems chunkTimeoutSeconds 0
        ((chunk_generator coords CHUNK_SIZE).zip outs)).length := by
      rw [driverItems_length]
      exact hiz
    have hstep : (driverFoldRec chunkTimeoutSeconds now 0
        ((chunk_generator coords CHUNK_SIZE).zip outs)
        { r0 with
          status := JStatus.processing
          started_at := some now
          error_message := none
          last_updated_at := now }).results =
        driverItems chunkTimeoutSeconds 0 ((chunk_generator coords CHUNK_SIZE).zip outs) := by
      rw [driverFoldRec_results]
      show r0.results ++ _ = _
      rw [hres0]
      rfl
    show (driverFoldRec chunkTimeoutSeconds now 0
        ((chunk_generator coords CHUNK_SIZE).zip outs)
        { r0 with
          status := JStatus.processing
          started_at := some now
          error_message := none
          last_updated_at := now }).results.get ⟨i, hri⟩ = _
    have hget := driverItems_get chunkTimeoutSeconds
      ((chunk_generator coords CHUNK_SIZE).zip outs) 0 i hitems hiz
    rw [List.get_of_eq hstep ⟨i, hri⟩] at *
    rw [hget, List.get_zip]
    show (driverChunk chunkTimeoutSeconds (0 + i)
        ((chunk_generator coords CHUNK_SIZE).get ⟨i, _⟩).length
        (outs.get ⟨i, hi⟩)).1 = _
    rw [hto, Nat.zero_add]
    rfl
  · show (if (driverLoop sz maxBytes jid chunkTimeoutSeconds now 0
        ((chunk_generator coords CHUNK_SIZE).zip outs)
        (update_job sz maxBytes s jid
          (fun j => { j with
                      status := JStatus.processing
                      started_at := some now
                      error_message := none }) now,
         db_update_job_status db jid "processing" true false none now, false)).2.2 = true
      then JStatus.failed else JStatus.completed) = JStatus.failed
    rw [hhad]
    rfl
  · show (if (driverLoop sz maxBytes jid chunkTimeoutSeconds now 0
        ((chunk_generator coords CHUNK_SIZE).zip outs)
        (update_job sz maxBytes s jid
          (fun j => { j with
                      status := JStatus.processing
                      started_at := some now
                      error_message := none }) now,
         db_update_job_status db jid "processing" true false none now, false)).2.2 = true
      then some "One or more chunks failed." else none) = some "One or more chunks failed."
    rw [hhad]
    rfl
  · show (if (driverLoop sz maxBytes jid chunkTimeoutSeconds now 0
        ((chunk_generator coords CHUNK_SIZE).zip outs)
        (update_job sz maxBytes s jid
          (fun j => { j with
                      status := JStatus.processing
                      started_at := some now
                      error_message := none }) now,
         db_update_job_status db jid "processing" true false none now, false)).2.2 = true
      then JStatus.failed else JStatus.completed) ≠ JStatus.completed
    rw [hhad]
    simp

theorem chunk_timeout_contained_witness :
    ((findJob (processJob (fun _ => 0) 9 "j" [(0 : Nat)] [Outcome.timeout 5] 30 7
        [mkJob "j" JStatus.queued 1 1 none] ⟨[], []⟩).1 "j").map
      (fun r => (r.status, r.error_message, r.results.length))) =
      some (JStatus.failed, some "One or more chunks failed.", 1) := by
  obtain ⟨r, hfind, hlen2, hget, hstat, herr, hne⟩ :=
    chunk_timeout_contained (fun _ => 0) 9
      (fun t => by rw [memUsage_const_zero]; exact Nat.zero_le 9)
      "j" [(0 : Nat)] [Outcome.timeout 5] 30 7
      [mkJob "j" JStatus.queued 1 1 none] ⟨[], []⟩ (mkJob "j" JStatus.queued 1 1 none)
      (by rfl) rfl (by rfl) 0 (by decide) 5 rfl
  rw [hfind]
  show some (r.status, r.error_message, r.results.length) = _
  rw [hstat, herr, hlen2]
  rfl
